import Mathlib

/-!
Verification of the escape-sequence re-encoding stage of the TypeScriptToLua fork.

JavaScript strings are modelled as lists of UTF-16 code units (`List Nat`).
The definitions in the first half of this file are shallow embeddings of the
source files `src/transformation/utils/utf8.ts` and the escape-sequence
transformer module; the second half states and proves the specification claims.
-/

/-! ## JavaScript string primitives -/

/-- JS `String.prototype.slice(a, b)` on code-unit lists (in-range naturals; JS clamps,
and so do `drop`/`take`). -/
def jsSlice (s : List Nat) (a b : Nat) : List Nat := (s.drop a).take (b - a)

/-- Index of the first backslash (code unit 92) in a list, if any. -/
def findBS : List Nat → Option Nat
  | [] => none
  | u :: rest => if u = 92 then some 0 else (findBS rest).map (· + 1)

/-- JS `text.indexOf("\\", i)`; `none` plays the role of `-1`. -/
def jsIndexOf (s : List Nat) (i : Nat) : Option Nat := (findBS (s.drop i)).map (· + i)

/-- Decimal digit code units of a natural number (fuelled so that it computes by
kernel reduction); with fuel above `n` this is exactly the JS base-10
number-to-string conversion, without padding. -/
def decDigits (fuel n : Nat) : List Nat :=
  match fuel with
  | 0 => []
  | f + 1 => if n < 10 then [48 + n] else decDigits f (n / 10) ++ [48 + n % 10]

/-- Code units of the JS string produced by interpolating a natural number. -/
def decimalUnits (n : Nat) : List Nat := decDigits (n + 1) n

/-- JS whitespace code units, as trimmed by `Number(...)`. -/
def jsWhitespaceChar (u : Nat) : Bool :=
  decide (u ∈ [9, 10, 11, 12, 13, 32, 160, 5760, 8192, 8193, 8194, 8195, 8196, 8197, 8198,
    8199, 8200, 8201, 8202, 8232, 8233, 8239, 8287, 12288, 65279])

/-- Is the code unit an ASCII hexadecimal digit. -/
def isHexDigitU (u : Nat) : Bool :=
  decide ((48 ≤ u ∧ u ≤ 57) ∨ (65 ≤ u ∧ u ≤ 70) ∨ (97 ≤ u ∧ u ≤ 102))

/-- Numeric value of a hexadecimal digit code unit. -/
def hexDigitVal (u : Nat) : Nat :=
  if u ≤ 57 then u - 48 else if u ≤ 70 then u - 55 else u - 87

/-- JS `Number("0x" + payload)`: trailing whitespace is trimmed, then the payload
must be a nonempty run of hex digits; `none` plays the role of `NaN`. -/
def jsHexNumber (payload : List Nat) : Option Nat :=
  let p := (payload.reverse.dropWhile jsWhitespaceChar).reverse
  if p ≠ [] ∧ p.all isHexDigitU then
    some (p.foldl (fun acc u => acc * 16 + hexDigitVal u) 0)
  else none

/-- Code units of the JS string interpolation of `Number("0x" + payload)`:
the decimal digits, or the three characters of the string NaN. -/
def hexEscToken (payload : List Nat) : List Nat :=
  match jsHexNumber payload with
  | some n => decimalUnits n
  | none => [78, 97, 78]

/-- Surrogate-pair combination, as performed by JS `codePointAt`. -/
def combineSurrogates (u v : Nat) : Nat := (u - 0xD800) * 0x400 + (v - 0xDC00) + 0x10000

/-- Code point obtained from a lead unit and the (optional) following unit. -/
def pairCodePoint (u : Nat) (next : Option Nat) : Nat :=
  if 0xD800 ≤ u ∧ u ≤ 0xDBFF then
    match next with
    | some v => if 0xDC00 ≤ v ∧ v ≤ 0xDFFF then combineSurrogates u v else u
    | none => u
  else u

/-- JS `String.prototype.codePointAt` on code-unit lists (the loop only calls it
in bounds, so the out-of-bounds value is irrelevant). -/
def jsCodePointAt (s : List Nat) (i : Nat) : Nat :=
  match s.get? i with
  | some first => pairCodePoint first (s.get? (i + 1))
  | none => 0

/-! ## Embedding of `src/transformation/utils/utf8.ts` -/

/-- utf8.ts `byteToString`: a backslash followed by the base-10 digits of the byte. -/
def byteToString (byte : Nat) : List Nat := 92 :: decimalUnits byte

/-- utf8.ts `encodeByte`: continuation byte 0b10xxxxxx from the low six bits. -/
def encodeByte (byte : Nat) : List Nat := byteToString (0b10000000 ||| (byte &&& 0b00111111))

/-- utf8.ts `encodeCodePoint`: lead byte of the 2-, 3- or 4-byte UTF-8 form
followed by continuation bytes, each as a decimal byte-escape token. -/
def encodeCodePoint (val : Nat) : List Nat :=
  if val < 0x800 then
    byteToString (0b11000000 ||| ((val >>> 6) &&& 0b00111111)) ++ encodeByte val
  else if val < 0x10000 then
    byteToString (0b11100000 ||| ((val >>> 12) &&& 0b00011111)) ++ encodeByte (val >>> 6) ++
      encodeByte val
  else
    byteToString (0b11110000 ||| ((val >>> 18) &&& 0b00001111)) ++ encodeByte (val >>> 12) ++
      encodeByte (val >>> 6) ++ encodeByte val

/-- The while-loop of utf8.ts `encodeUTF8`, fuelled (one unit of fuel per code
unit, so `str.length` fuel always suffices): `head` is the start of the pending
verbatim run, `tail` the scan position, `buffer` the accumulated output. -/
def encodeUTF8Loop (str : List Nat) : Nat → Nat → Nat → List Nat → List Nat
  | 0, head, tail, buffer => buffer ++ jsSlice str head tail
  | fuel + 1, head, tail, buffer =>
    if tail < str.length then
      let codePoint := jsCodePointAt str tail
      if codePoint > 0xFF then
        let buffer1 := buffer ++ jsSlice str head tail
        let buffer2 :=
          if codePoint < 0xDC00 ∨ codePoint > 0xDFFF then buffer1 ++ encodeCodePoint codePoint
          else buffer1
        encodeUTF8Loop str fuel (tail + 1) (tail + 1) buffer2
      else encodeUTF8Loop str fuel head (tail + 1) buffer
    else buffer ++ jsSlice str head tail

/-- utf8.ts `encodeUTF8`. -/
def encodeUTF8 (str : List Nat) : List Nat := encodeUTF8Loop str str.length 0 0 []

/-- Structural restatement of the `encodeUTF8` scan: one code unit per step,
emitting pending verbatim units eagerly. Proved equal to `encodeUTF8` below. -/
def encodeSpec : List Nat → List Nat
  | [] => []
  | u :: rest =>
    let codePoint := pairCodePoint u rest.head?
    if codePoint > 0xFF then
      (if codePoint < 0xDC00 ∨ codePoint > 0xDFFF then encodeCodePoint codePoint else []) ++
        encodeSpec rest
    else u :: encodeSpec rest

/-! ## Embedding of the escape-sequence transformer module -/

/-- Modelled from the spec: the enumeration of target-dialect identifiers
supplied by compiler configuration (`LuaTarget` lives in `CompilerOptions.ts`,
which is not part of the analysed sources; the constructors cover the dialects
named by the capability lists of the transformer module and the 5.3-and-later,
JIT and universal targets the spec mentions). -/
inductive LuaTarget where
  | lua50
  | lua51
  | lua52
  | lua53
  | lua54
  | luaJIT
  | universal
deriving DecidableEq

/-- Source list `unsupportedUnicodeTargets = [LuaTarget.Lua50, LuaTarget.Lua51, LuaTarget.Lua52]`. -/
def unsupportedUnicodeTargets : List LuaTarget := [.lua50, .lua51, .lua52]

/-- Source list `unsupportedHexTargets = [LuaTarget.Lua50, LuaTarget.Lua51]`. -/
def unsupportedHexTargets : List LuaTarget := [.lua50, .lua51]

/-- The `unsupportedUnicodeTargets.includes(target)` check selecting the aborting
Unicode strategy. -/
def unicodeUnsupported (t : LuaTarget) : Bool := unsupportedUnicodeTargets.contains t

/-- The `unsupportedHexTargets.includes(target)` check selecting the hex-rewrite
strategy. -/
def hexUnsupported (t : LuaTarget) : Bool := unsupportedHexTargets.contains t

/-- Result of the scanning while-loop: the closure variables of the transformer
at loop exit, plus the number of diagnostics pushed during the call.
A `head` of `-1` mirrors the JS assignment of the failed `indexOf` result. -/
structure ScanOut where
  head : Int
  start : Nat
  buffer : List Nat
  diags : Nat
deriving DecidableEq

/-- The scanning while-loop of the transformer returned by `createTransformer`:
repeatedly fast-travel to the next backslash and dispatch on the discriminator
(`parseEscapeSequence` inlined: case `x` is `parseHexEscape`, case `u` is
`parseUnicodeEscape`, default skips the discriminator). Fuelled: the loop
advances `head` by at least two per iteration, so `text.length + 2` fuel always
suffices, and the fuel-exhausted value coincides with the normal-exit value. -/
def scanLoop (target : LuaTarget) (text : List Nat) (textStart : Nat) :
    Nat → Nat → Nat → List Nat → ScanOut
  | 0, _, start, buffer => ⟨-1, start, buffer, 0⟩
  | fuel + 1, head, start, buffer =>
    match jsIndexOf text head with
    | none => ⟨-1, start, buffer, 0⟩
    | some i =>
      match text.get? (i + 1) with
      | some 120 =>
        if hexUnsupported target then
          -- transformHexEscape: head is i + 1, nextHead = head + 3,
          -- payload = text.slice(head + 1, nextHead), chunk ends at head - 1 = i
          let nextHead := i + 1 + 3
          let token := 92 :: hexEscToken (jsSlice text (i + 2) nextHead)
          scanLoop target text textStart fuel nextHead nextHead
            (buffer ++ jsSlice text start i ++ token)
        else
          -- pass-through strategy: head++
          scanLoop target text textStart fuel (i + 2) start buffer
      | some 117 =>
        if unicodeUnsupported target then
          -- push one diagnostic, return false: the loop resets start and breaks
          ⟨(i : Int) + 1, textStart, buffer, 1⟩
        else
          -- transformUnicodeEscape: head++ lands on i + 2
          if text.get? (i + 2) = some 123 then
            scanLoop target text textStart fuel (i + 2) start buffer
          else
            let next := i + 2 + 4
            let token := 92 :: 117 :: 123 :: (jsSlice text (i + 2) next ++ [125])
            scanLoop target text textStart fuel next next
              (buffer ++ jsSlice text start i ++ token)
      | _ =>
        -- nothing of our interest: head++ again
        scanLoop target text textStart fuel (i + 2) start buffer

/-- The body of the transformer after text extraction: run the loop from
`textStart`, then assemble the result, prepending the buffer only when the
chunk start was not reset (the reset marks an abort). Returns the result text
and the number of diagnostics pushed. -/
def rewriteCore (target : LuaTarget) (text : List Nat) (textStart textEnd : Nat) :
    List Nat × Nat :=
  let out := scanLoop target text textStart (text.length + 2) textStart textStart []
  ((if out.start ≠ textStart then out.buffer else []) ++ jsSlice text out.start textEnd,
    out.diags)

/-- The rewrite applied to the raw text of a template-part or synthesized
literal, whose span is the whole text (`textStart = 0`, `textEnd = length`). -/
def transformText (target : LuaTarget) (text : List Nat) : List Nat × Nat :=
  rewriteCore target text 0 text.length

/-- The string-literal node abstraction used by the transformer: position,
syntax kind, synthesized flag, decoded text, raw source text (with quotes) and
the raw text of template parts. -/
structure StringNode where
  pos : Int
  isStringLiteral : Bool
  synthesized : Bool
  text : List Nat
  sourceText : List Nat
  rawText : Option (List Nat)

/-- The mutable closure variables (`head`, `start`, `buffer`) of a cached
transformer, persisted between invocations. -/
structure TransState where
  head : Int
  start : Nat
  buffer : List Nat

/-- Closure state of a freshly built transformer (`head = 0`, `start = 0`,
empty buffer). -/
def initialTransState : TransState := ⟨0, 0, []⟩

/-- Text extraction of the transformer: decoded text for synthesized string
literals, source text without the delimiting quotes otherwise, raw text for
template parts. -/
def nodeSpan (node : StringNode) : List Nat × Nat × Nat :=
  if node.isStringLiteral then
    if node.synthesized then (node.text, 0, node.text.length)
    else (node.sourceText, 1, node.sourceText.length - 1)
  else
    match node.rawText with
    | some r => (r, 0, r.length)
    | none => ([], 0, 0)

/-- One invocation of a cached transformer: early return for nodes without a
real source position and for empty text, otherwise reset the closure state and
scan. Returns the result text, the closure state left behind (buffer discarded
at the end of the call) and the number of diagnostics pushed. -/
def transformerCall (target : LuaTarget) (st : TransState) (node : StringNode) :
    List Nat × TransState × Nat :=
  if node.pos = -1 then (node.text, st, 0)
  else
    let (text, textStart, textEnd) := nodeSpan node
    if text.length = 0 then ([], st, 0)
    else
      let out := scanLoop target text textStart (text.length + 2) textStart textStart []
      ((if out.start ≠ textStart then out.buffer else []) ++ jsSlice text out.start textEnd,
        ⟨out.head, out.start, []⟩, out.diags)

/-- The process-wide transformer cache: one optional transformer state per target. -/
def ProcState := LuaTarget → Option TransState

/-- `transformEscapeSequences`: look up or build the cached transformer for the
target and invoke it. Returns result text, updated process state and the number
of diagnostics pushed. -/
def transformEscapeSequences (ps : ProcState) (target : LuaTarget) (node : StringNode) :
    List Nat × ProcState × Nat :=
  let st := match ps target with | some s => s | none => initialTransState
  let r := transformerCall target st node
  (r.1, fun u => if u = target then some r.2.1 else ps u, r.2.2)

/-- The rewrite as a pure function of the node and target alone. -/
def pureTransform (target : LuaTarget) (node : StringNode) : List Nat :=
  if node.pos = -1 then node.text
  else
    let (text, textStart, textEnd) := nodeSpan node
    if text.length = 0 then [] else (rewriteCore target text textStart textEnd).1

/-! ## Structural restatement of the scan, and claim-side specification functions -/

/-- Structural restatement of the scanning loop: one step per code unit or per
escape token, emitting eagerly; `none` means the scan aborted on an unsupported
Unicode escape (pushing exactly one diagnostic). Proved equivalent to
`scanLoop` below. -/
def specScan (target : LuaTarget) : List Nat → Option (List Nat)
  | [] => some []
  | u :: rest =>
    if u = 92 then
      match rest with
      | 120 :: rest2 =>
        if hexUnsupported target then
          match rest2 with
          | a :: b :: rest3 =>
            Option.map (fun o => 92 :: (hexEscToken [a, b] ++ o)) (specScan target rest3)
          | [a] => some (92 :: hexEscToken [a])
          | [] => some (92 :: hexEscToken [])
        else Option.map (fun o => 92 :: 120 :: o) (specScan target rest2)
      | 117 :: rest2 =>
        if unicodeUnsupported target then none
        else
          match rest2 with
          | 123 :: rest3 =>
            -- the scan resumes at the brace, which the next step copies verbatim
            Option.map (fun o => 92 :: 117 :: 123 :: o) (specScan target rest3)
          | a :: b :: c :: d :: rest3 =>
            Option.map (fun o => 92 :: 117 :: 123 :: a :: b :: c :: d :: 125 :: o)
              (specScan target rest3)
          | short => some (92 :: 117 :: 123 :: (short ++ [125]))
      | c :: rest2 => Option.map (fun o => 92 :: c :: o) (specScan target rest2)
      | [] => some [92]
    else Option.map (fun o => u :: o) (specScan target rest)

/-- The scan reaches a Unicode escape it must abort on: for a target without
Unicode escape support, the literal text makes the scanner encounter a
backslash-u token. -/
def scanAborts (target : LuaTarget) (text : List Nat) : Prop :=
  specScan target text = none

instance (target : LuaTarget) (text : List Nat) : Decidable (scanAborts target text) := by
  unfold scanAborts; infer_instance

/-- A lexical chunk of literal text: a backslash-free run, a hex escape token, a
bare Unicode escape token, a braced Unicode escape token, or any other
two-character escape. -/
inductive Chunk where
  | plain (s : List Nat)
  | hex (d1 d2 : Nat)
  | uniBare (a b c d : Nat)
  | uniBraced (s : List Nat)
  | esc (c : Nat)

/-- Well-formedness of a chunk: plain runs are backslash-free, escape payloads
are hex digits, and the discriminator of a generic escape is neither x nor u. -/
def chunkValid : Chunk → Prop
  | .plain s => 92 ∉ s
  | .hex d1 d2 => isHexDigitU d1 = true ∧ isHexDigitU d2 = true
  | .uniBare a b c d =>
      isHexDigitU a = true ∧ isHexDigitU b = true ∧ isHexDigitU c = true ∧ isHexDigitU d = true
  | .uniBraced s => ∀ u ∈ s, isHexDigitU u = true
  | .esc c => c ≠ 120 ∧ c ≠ 117

/-- A chunk the scan can process without aborting for the given target: any
Unicode escape (bare or braced) requires Unicode escape support. -/
def chunkOk (target : LuaTarget) : Chunk → Prop
  | .uniBare _ _ _ _ => unicodeUnsupported target = false
  | .uniBraced _ => unicodeUnsupported target = false
  | _ => True

/-- Chunk well-formedness is decidable (so witnesses can be checked by evaluation). -/
instance (c : Chunk) : Decidable (chunkValid c) := by
  cases c with
  | plain s => exact inferInstanceAs (Decidable (92 ∉ s))
  | hex d1 d2 => exact inferInstanceAs (Decidable (_ ∧ _))
  | uniBare a b c d => exact inferInstanceAs (Decidable (_ ∧ _ ∧ _ ∧ _))
  | uniBraced s => exact inferInstanceAs (Decidable (∀ u ∈ s, isHexDigitU u = true))
  | esc c => exact inferInstanceAs (Decidable (_ ∧ _))

/-- The source text of a chunk. -/
def renderChunk : Chunk → List Nat
  | .plain s => s
  | .hex d1 d2 => [92, 120, d1, d2]
  | .uniBare a b c d => [92, 117, a, b, c, d]
  | .uniBraced s => 92 :: 117 :: 123 :: (s ++ [125])
  | .esc c => [92, c]

/-- Chunk admissibility is decidable. -/
instance (t : LuaTarget) (c : Chunk) : Decidable (chunkOk t c) := by
  cases c with
  | plain s => exact inferInstanceAs (Decidable True)
  | hex d1 d2 => exact inferInstanceAs (Decidable True)
  | uniBare a b c d => exact inferInstanceAs (Decidable (_ = _))
  | uniBraced s => exact inferInstanceAs (Decidable (_ = _))
  | esc c => exact inferInstanceAs (Decidable True)

/-- The rewritten text of a chunk for the given target: hex escapes become
decimal escapes exactly when the target lacks hex escapes, bare Unicode escapes
become braced, everything else is untouched. -/
def rewriteChunk (target : LuaTarget) : Chunk → List Nat
  | .plain s => s
  | .hex d1 d2 =>
      if hexUnsupported target then 92 :: decimalUnits (hexDigitVal d1 * 16 + hexDigitVal d2)
      else [92, 120, d1, d2]
  | .uniBare a b c d => [92, 117, 123, a, b, c, d, 125]
  | .uniBraced s => 92 :: 117 :: 123 :: (s ++ [125])
  | .esc c => [92, c]

/-- The source text of a chunk list. -/
def renderChunks (cs : List Chunk) : List Nat := (cs.map renderChunk).flatten

/-- The rewritten text of a chunk list. -/
def rewriteChunks (target : LuaTarget) (cs : List Chunk) : List Nat :=
  (cs.map (rewriteChunk target)).flatten

/-- Is the chunk a Unicode escape token (the kind that aborts the scan on
targets without Unicode escapes). -/
def isUniChunk : Chunk → Prop
  | .uniBare _ _ _ _ => True
  | .uniBraced _ => True
  | _ => False

/-- UTF-8 byte sequence of a code point, written from the claim: 2-byte form
below 0x800, 3-byte form below 0x10000, 4-byte form otherwise, with 0b10xxxxxx
continuation bytes carrying six bits each. -/
def utf8Bytes (cp : Nat) : List Nat :=
  if cp < 0x800 then
    [0b11000000 ||| (cp >>> 6), 0b10000000 ||| (cp &&& 0b00111111)]
  else if cp < 0x10000 then
    [0b11100000 ||| (cp >>> 12), 0b10000000 ||| ((cp >>> 6) &&& 0b00111111),
      0b10000000 ||| (cp &&& 0b00111111)]
  else
    [0b11110000 ||| (cp >>> 18), 0b10000000 ||| ((cp >>> 12) &&& 0b00111111),
      0b10000000 ||| ((cp >>> 6) &&& 0b00111111), 0b10000000 ||| (cp &&& 0b00111111)]

/-- Decimal byte-escape tokens of a byte sequence. -/
def escTokens (bytes : List Nat) : List Nat := (bytes.map fun b => 92 :: decimalUnits b).flatten

/-- Code point sequence of a code-unit list, consuming a high surrogate
followed by a low surrogate as one combined code point (a standard forward
decoder; lone surrogate halves are kept as their own code-unit values, as JS
`codePointAt` yields them). -/
def decodePoints : List Nat → List Nat
  | [] => []
  | [u] => [u]
  | u :: v :: rest2 =>
    if (0xD800 ≤ u ∧ u ≤ 0xDBFF) ∧ (0xDC00 ≤ v ∧ v ≤ 0xDFFF) then
      combineSurrogates u v :: decodePoints rest2
    else u :: decodePoints (v :: rest2)

/-- Per-code-point output of the encoder, written from the claim as amended:
code points above 0xFF become the decimal byte-escape tokens of their UTF-8
encoding, except unpaired low-surrogate code units, which are deleted; code
points up to 0xFF stay as the original character. -/
def specEncodeEmit (cp : Nat) : List Nat :=
  if cp > 0xFF then
    if 0xDC00 ≤ cp ∧ cp ≤ 0xDFFF then [] else escTokens (utf8Bytes cp)
  else [cp]

/-- The encoder contract written from the claim as amended (with the
low-surrogate carve-out). -/
def specEncode (s : List Nat) : List Nat := ((decodePoints s).map specEncodeEmit).flatten

/-- Per-code-point output exactly as the claim states it: every code point
above 0xFF is replaced by its UTF-8 byte-escape tokens, with no carve-out. -/
def specEncodeNaiveEmit (cp : Nat) : List Nat :=
  if cp > 0xFF then escTokens (utf8Bytes cp) else [cp]

/-- The encoder contract exactly as the claim states it. -/
def specEncodeNaive (s : List Nat) : List Nat := ((decodePoints s).map specEncodeNaiveEmit).flatten

/-! ## Helper lemmas about the string primitives -/

theorem lt_of_get?_some {t : List Nat} {n u : Nat} (h : t.get? n = some u) : n < t.length := by
  by_contra hh
  rw [List.get?_eq_none.mpr (Nat.le_of_not_lt hh)] at h
  exact Option.noConfusion h

theorem drop_eq_cons_of_get? {t : List Nat} {n u : Nat} (h : t.get? n = some u) :
    t.drop n = u :: t.drop (n + 1) := by
  have hn : n < t.length := lt_of_get?_some h
  rw [List.drop_eq_getElem_cons hn]
  rw [List.get?_eq_get hn] at h
  simp at h
  rw [h]

theorem head?_drop_eq_get? (t : List Nat) (n : Nat) : (t.drop n).head? = t.get? n := by
  cases hn : t.get? n with
  | none =>
    rw [List.drop_eq_nil_of_le (List.get?_eq_none.mp hn)]
    rfl
  | some u => rw [drop_eq_cons_of_get? hn]; rfl

theorem get?_drop' (t : List Nat) (n m : Nat) : (t.drop n).get? m = t.get? (n + m) := by
  simp [List.get?_eq_getElem?, List.getElem?_drop]

theorem jsSlice_self (t : List Nat) (a : Nat) : jsSlice t a a = [] := by
  simp [jsSlice]

theorem jsSlice_zero_length (t : List Nat) : jsSlice t 0 t.length = t := by
  simp [jsSlice]

theorem jsSlice_of_length_le (t : List Nat) (a b : Nat) (h : t.length ≤ b) :
    jsSlice t a b = t.drop a := by
  apply List.take_of_length_le
  simp
  omega

theorem jsSlice_drop_take (t : List Nat) (a k : Nat) : jsSlice t a (a + k) = (t.drop a).take k := by
  unfold jsSlice
  congr 1
  omega

theorem jsSlice_append (t : List Nat) (a b c : Nat) (hab : a ≤ b) (hbc : b ≤ c) :
    jsSlice t a b ++ jsSlice t b c = jsSlice t a c := by
  unfold jsSlice
  have h1 : c - a = (b - a) + (c - b) := by omega
  have h2 : (t.drop a).drop (b - a) = t.drop b := by
    rw [List.drop_drop]
    congr 1
    omega
  rw [h1, List.take_add, h2]

theorem drop_eq_slice_append (t : List Nat) (a b : Nat) (hab : a ≤ b) :
    t.drop a = jsSlice t a b ++ t.drop b := by
  unfold jsSlice
  have h2 : (t.drop a).drop (b - a) = t.drop b := by
    rw [List.drop_drop]
    congr 1
    omega
  conv_lhs => rw [← List.take_append_drop (b - a) (t.drop a)]
  rw [h2]

theorem jsSlice_cons_of_get? {t : List Nat} {b u : Nat} (a : Nat) (hab : a ≤ b)
    (h : t.get? b = some u) : jsSlice t a (b + 1) = jsSlice t a b ++ [u] := by
  rw [← jsSlice_append t a b (b + 1) hab (by omega)]
  congr 1
  have h1 : b + 1 = b + 1 := rfl
  rw [jsSlice_drop_take t b 1, drop_eq_cons_of_get? h]
  rfl

theorem jsSlice_pair_of_get? {t : List Nat} {i u v : Nat} (hu : t.get? i = some u)
    (hv : t.get? (i + 1) = some v) : jsSlice t i (i + 2) = [u, v] := by
  rw [jsSlice_drop_take t i 2, drop_eq_cons_of_get? hu, drop_eq_cons_of_get? hv]
  rfl

/-! ## Helper lemmas about backslash search -/

theorem findBS_some {l : List Nat} {j : Nat} (h : findBS l = some j) :
    l.get? j = some 92 ∧ 92 ∉ l.take j := by
  induction l generalizing j with
  | nil => exact Option.noConfusion h
  | cons u rest ih =>
    simp only [findBS] at h
    by_cases hu : u = 92
    · rw [if_pos hu] at h
      simp at h
      subst h
      simp [hu]
    · rw [if_neg hu] at h
      cases hf : findBS rest with
      | none => rw [hf] at h; exact Option.noConfusion h
      | some j' =>
        rw [hf] at h
        simp at h
        subst h
        obtain ⟨hg, hm⟩ := ih hf
        refine ⟨hg, ?_⟩
        simp only [List.take_succ_cons, List.mem_cons]
        push_neg
        exact ⟨fun hc => hu hc.symm, hm⟩

theorem findBS_none {l : List Nat} (h : findBS l = none) : 92 ∉ l := by
  induction l with
  | nil => simp
  | cons u rest ih =>
    simp only [findBS] at h
    by_cases hu : u = 92
    · rw [if_pos hu] at h; exact Option.noConfusion h
    · rw [if_neg hu] at h
      cases hf : findBS rest with
      | none =>
        simp only [List.mem_cons]
        push_neg
        exact ⟨fun hc => hu hc.symm, ih hf⟩
      | some j' => rw [hf] at h; exact Option.noConfusion h

theorem jsIndexOf_some {t : List Nat} {head i : Nat} (h : jsIndexOf t head = some i) :
    head ≤ i ∧ i < t.length ∧ t.get? i = some 92 ∧ 92 ∉ jsSlice t head i := by
  unfold jsIndexOf at h
  cases hf : findBS (t.drop head) with
  | none => rw [hf] at h; exact Option.noConfusion h
  | some j =>
    rw [hf] at h
    simp at h
    obtain ⟨hg, hm⟩ := findBS_some hf
    rw [get?_drop'] at hg
    subst h
    have hlt : head + j < t.length := lt_of_get?_some hg
    refine ⟨by omega, by omega, by rw [Nat.add_comm j head]; exact hg, ?_⟩
    rw [jsSlice]
    have : j + head - head = j := by omega
    rw [this]
    exact hm

theorem jsIndexOf_none {t : List Nat} {head : Nat} (h : jsIndexOf t head = none) :
    92 ∉ t.drop head := by
  unfold jsIndexOf at h
  cases hf : findBS (t.drop head) with
  | none => exact findBS_none hf
  | some j => rw [hf] at h; exact Option.noConfusion h

/-! ## Helper lemmas about decimal digits and hex parsing -/

theorem decDigits_spec (f : Nat) : ∀ n, n < f →
    decDigits f n ≠ [] ∧ ∀ u ∈ decDigits f n, 48 ≤ u ∧ u ≤ 57 := by
  induction f with
  | zero => intro n hn; omega
  | succ f ih =>
    intro n hn
    by_cases h10 : n < 10
    · simp only [decDigits]
      rw [if_pos h10]
      constructor
      · simp
      · intro u hu
        simp at hu
        omega
    · have hdiv : n / 10 < f := by
        have h1 : n / 10 < n := Nat.div_lt_self (by omega) (by omega)
        omega
      obtain ⟨hne, hmem⟩ := ih (n / 10) hdiv
      simp only [decDigits]
      rw [if_neg h10]
      constructor
      · intro hc
        exact hne (List.append_eq_nil.mp hc).1
      · intro u hu
        rcases List.mem_append.mp hu with hl | hr
        · exact hmem u hl
        · simp at hr
          have : n % 10 < 10 := Nat.mod_lt n (by omega)
          omega

theorem decimalUnits_spec (n : Nat) :
    decimalUnits n ≠ [] ∧ ∀ u ∈ decimalUnits n, 48 ≤ u ∧ u ≤ 57 :=
  decDigits_spec (n + 1) n (by omega)

theorem hexDigit_not_ws {u : Nat} (h : isHexDigitU u = true) : jsWhitespaceChar u = false := by
  simp [isHexDigitU] at h
  simp [jsWhitespaceChar]
  omega

theorem hexDigit_ne_92 {u : Nat} (h : isHexDigitU u = true) : u ≠ 92 := by
  simp [isHexDigitU] at h
  omega

theorem hexDigit_ne_123 {u : Nat} (h : isHexDigitU u = true) : u ≠ 123 := by
  simp [isHexDigitU] at h
  omega

theorem jsHexNumber_pair {d1 d2 : Nat} (h1 : isHexDigitU d1 = true) (h2 : isHexDigitU d2 = true) :
    jsHexNumber [d1, d2] = some (hexDigitVal d1 * 16 + hexDigitVal d2) := by
  unfold jsHexNumber
  simp [List.dropWhile, hexDigit_not_ws h2, h1, h2]

theorem jsHexNumber_single {d : Nat} (h : isHexDigitU d = true) :
    jsHexNumber [d] = some (hexDigitVal d) := by
  unfold jsHexNumber
  simp [List.dropWhile, hexDigit_not_ws h, h]

theorem hexEscToken_pair {d1 d2 : Nat} (h1 : isHexDigitU d1 = true) (h2 : isHexDigitU d2 = true) :
    hexEscToken [d1, d2] = decimalUnits (hexDigitVal d1 * 16 + hexDigitVal d2) := by
  unfold hexEscToken
  rw [jsHexNumber_pair h1 h2]

theorem hexEscToken_single {d : Nat} (h : isHexDigitU d = true) :
    hexEscToken [d] = decimalUnits (hexDigitVal d) := by
  unfold hexEscToken
  rw [jsHexNumber_single h]

/-! ## Step lemmas for the structural scan -/

theorem specScan_nil (t : LuaTarget) : specScan t [] = some [] := rfl

theorem specScan_cons_plain (t : LuaTarget) {u : Nat} (rest : List Nat) (hu : u ≠ 92) :
    specScan t (u :: rest) = Option.map (fun o => u :: o) (specScan t rest) := by
  rw [specScan.eq_def]
  simp [hu]

theorem specScan_bs_only (t : LuaTarget) : specScan t [92] = some [92] := rfl






theorem specScan_bs_other (t : LuaTarget) {c : Nat} (rest2 : List Nat) (h120 : c ≠ 120)
    (h117 : c ≠ 117) :
    specScan t (92 :: c :: rest2) = Option.map (fun o => 92 :: c :: o) (specScan t rest2) := by
  rw [specScan.eq_def]
  simp only [if_pos rfl]
  split
  · rfl
  · rename_i hfalse
    exact absurd trivial hfalse

theorem specScan_bs_x_sup (t : LuaTarget) (rest2 : List Nat) (ht : hexUnsupported t = false) :
    specScan t (92 :: 120 :: rest2) = Option.map (fun o => 92 :: 120 :: o) (specScan t rest2) := by
  rw [specScan.eq_def]
  cases rest2 with
  | nil => simp [ht]
  | cons a r =>
    cases r with
    | nil => simp [ht]
    | cons b r2 => simp [ht]

theorem specScan_bs_x_unsup (t : LuaTarget) (rest2 : List Nat) (ht : hexUnsupported t = true) :
    specScan t (92 :: 120 :: rest2) =
      Option.map (fun o => 92 :: (hexEscToken (rest2.take 2) ++ o)) (specScan t (rest2.drop 2)) := by
  rw [specScan.eq_def]
  cases rest2 with
  | nil => simp [ht, specScan_nil]
  | cons a r =>
    cases r with
    | nil => simp [ht, specScan_nil]
    | cons b r2 => simp [ht]

theorem specScan_bs_u_unsup (t : LuaTarget) (rest2 : List Nat) (ht : unicodeUnsupported t = true) :
    specScan t (92 :: 117 :: rest2) = none := by
  rw [specScan.eq_def]
  cases rest2 with
  | nil => simp [ht]
  | cons a r => simp [ht]

theorem specScan_bs_u_brace (t : LuaTarget) (rest3 : List Nat) (ht : unicodeUnsupported t = false) :
    specScan t (92 :: 117 :: 123 :: rest3) =
      Option.map (fun o => 92 :: 117 :: 123 :: o) (specScan t rest3) := by
  rw [specScan.eq_def]
  simp [ht]



theorem specScan_bs_u_rewrite (t : LuaTarget) (rest2 : List Nat) (ht : unicodeUnsupported t = false)
    (hb : rest2.head? ≠ some 123) :
    specScan t (92 :: 117 :: rest2) =
      Option.map (fun o => 92 :: 117 :: 123 :: (rest2.take 4 ++ 125 :: o))
        (specScan t (rest2.drop 4)) := by
  rw [specScan.eq_def]
  cases rest2 with
  | nil => simp [ht, specScan_nil]
  | cons a r =>
    have ha : a ≠ 123 := fun hc => hb (by rw [hc]; rfl)
    cases r with
    | nil =>
      simp only [ht, Bool.false_eq_true, if_false]
      split
      split
      all_goals solve
      | (rename_i heq; injection heq with h1 hh; exact absurd h1 ha)
      | (rename_i heq; simp at heq)
      | simp [specScan_nil]
    | cons b r2 =>
      cases r2 with
      | nil =>
        simp only [ht, Bool.false_eq_true, if_false]
        split
        split
        all_goals solve
        | (rename_i heq; injection heq with h1 hh; exact absurd h1 ha)
        | (rename_i heq; simp at heq)
        | simp [specScan_nil]
      | cons cc r3 =>
        cases r3 with
        | nil =>
          simp only [ht, Bool.false_eq_true, if_false]
          split
          split
          all_goals solve
          | (rename_i heq; injection heq with h1 hh; exact absurd h1 ha)
          | (rename_i heq; simp at heq)
          | simp [specScan_nil]
        | cons d r4 =>
          simp only [ht, Bool.false_eq_true, if_false]
          split
          · simp
          · rename_i hf
            exact absurd trivial hf

theorem specScan_append_plain (t : LuaTarget) {s : List Nat} (r : List Nat) (h : 92 ∉ s) :
    specScan t (s ++ r) = Option.map (fun o => s ++ o) (specScan t r) := by
  induction s with
  | nil => cases hr : specScan t r <;> simp [hr]
  | cons u s2 ih =>
    have hu : u ≠ 92 := by
      intro hc
      subst hc
      exact h (List.mem_cons_self 92 s2)
    have h2 : 92 ∉ s2 := fun hc => h (List.mem_cons_of_mem u hc)
    rw [List.cons_append, specScan_cons_plain t _ hu, ih h2]
    cases hr : specScan t r <;> simp

theorem specScan_plain (t : LuaTarget) {s : List Nat} (h : 92 ∉ s) :
    specScan t s = some s := by
  have := specScan_append_plain t [] h
  rw [List.append_nil] at this
  rw [this, specScan_nil]
  simp

theorem specScan_chunk (t : LuaTarget) (c : Chunk) (r : List Nat) (hv : chunkValid c)
    (hk : chunkOk t c) :
    specScan t (renderChunk c ++ r) =
      Option.map (fun o => rewriteChunk t c ++ o) (specScan t r) := by
  cases c with
  | plain s =>
    simp only [renderChunk, rewriteChunk]
    exact specScan_append_plain t r hv
  | hex d1 d2 =>
    obtain ⟨h1, h2⟩ := hv
    by_cases ht : hexUnsupported t = true
    · simp only [renderChunk, List.cons_append, List.nil_append]
      rw [specScan_bs_x_unsup t (d1 :: d2 :: r) ht]
      simp only [rewriteChunk, ht, if_pos, List.take_succ_cons, List.take_zero, List.drop_succ_cons,
        List.drop_zero, hexEscToken_pair h1 h2]
      cases hr : specScan t r <;> simp
    · have ht2 : hexUnsupported t = false := by
        cases hx : hexUnsupported t
        · rfl
        · exact absurd hx ht
      simp only [renderChunk, List.cons_append, List.nil_append]
      rw [specScan_bs_x_sup t (d1 :: d2 :: r) ht2]
      have hmem : 92 ∉ [d1, d2] := by
        intro hm
        rcases List.mem_cons.mp hm with hx | hx
        · exact hexDigit_ne_92 h1 hx.symm
        · simp at hx
          exact hexDigit_ne_92 h2 hx.symm
      have := specScan_append_plain t r hmem
      simp only [List.cons_append, List.nil_append] at this
      rw [this]
      simp only [rewriteChunk, ht2]
      cases hr : specScan t r <;> simp [ht2]
  | uniBare a b c2 d =>
    obtain ⟨h1, h2, h3, h4⟩ := hv
    have ht : unicodeUnsupported t = false := hk
    simp only [renderChunk, List.cons_append, List.nil_append]
    rw [specScan_bs_u_rewrite t (a :: b :: c2 :: d :: r) ht
      (by simp only [List.head?_cons]; intro hc; injection hc with hc2; exact hexDigit_ne_123 h1 hc2)]
    simp only [rewriteChunk, List.take_succ_cons, List.take_zero, List.drop_succ_cons, List.drop_zero]
    cases hr : specScan t r <;> simp
  | uniBraced s =>
    have ht : unicodeUnsupported t = false := hk
    have hassoc : renderChunk (Chunk.uniBraced s) ++ r = 92 :: 117 :: 123 :: ((s ++ [125]) ++ r) := by
      simp [renderChunk]
    rw [hassoc, specScan_bs_u_brace t ((s ++ [125]) ++ r) ht]
    have hmem : 92 ∉ s ++ [125] := by
      intro hm
      rcases List.mem_append.mp hm with hx | hx
      · exact hexDigit_ne_92 (hv 92 hx) rfl
      · simp at hx
    rw [specScan_append_plain t r hmem]
    simp only [rewriteChunk]
    cases hr : specScan t r <;> simp
  | esc cc =>
    obtain ⟨h1, h2⟩ := hv
    simp only [renderChunk, List.cons_append, List.nil_append]
    rw [specScan_bs_other t r h1 h2]
    simp only [rewriteChunk]
    cases hr : specScan t r <;> simp

theorem specScan_chunks (t : LuaTarget) (cs : List Chunk)
    (h : ∀ c ∈ cs, chunkValid c ∧ chunkOk t c) :
    specScan t (renderChunks cs) = some (rewriteChunks t cs) := by
  induction cs with
  | nil => simp [renderChunks, rewriteChunks, specScan_nil]
  | cons c cs2 ih =>
    have hc := h c (List.mem_cons_self c cs2)
    have h2 : ∀ c2 ∈ cs2, chunkValid c2 ∧ chunkOk t c2 :=
      fun c2 hm => h c2 (List.mem_cons_of_mem c hm)
    have hrc : renderChunks (c :: cs2) = renderChunk c ++ renderChunks cs2 := by
      simp [renderChunks]
    rw [hrc, specScan_chunk t c _ hc.1 hc.2, ih h2]
    simp [rewriteChunks]

theorem specScan_chunks_abort (t : LuaTarget) (cs : List Chunk)
    (hv : ∀ c ∈ cs, chunkValid c) (hu : ∃ c ∈ cs, isUniChunk c)
    (ht : unicodeUnsupported t = true) :
    specScan t (renderChunks cs) = none := by
  induction cs with
  | nil =>
    obtain ⟨c, hc, _⟩ := hu
    exact absurd hc (List.not_mem_nil c)
  | cons c cs2 ih =>
    have hrc : renderChunks (c :: cs2) = renderChunk c ++ renderChunks cs2 := by
      simp [renderChunks]
    rw [hrc]
    by_cases hcu : isUniChunk c
    · cases c with
      | uniBare a b c2 d =>
        simp only [renderChunk, List.cons_append, List.nil_append]
        exact specScan_bs_u_unsup t _ ht
      | uniBraced s =>
        have : renderChunk (Chunk.uniBraced s) ++ renderChunks cs2 =
            92 :: 117 :: (123 :: (s ++ [125]) ++ renderChunks cs2) := by
          simp [renderChunk]
        rw [this]
        exact specScan_bs_u_unsup t _ ht
      | plain s => exact absurd hcu (by simp [isUniChunk])
      | hex d1 d2 => exact absurd hcu (by simp [isUniChunk])
      | esc cc => exact absurd hcu (by simp [isUniChunk])
    · have hk : chunkOk t c := by
        cases c with
        | uniBare a b c2 d => exact absurd trivial hcu
        | uniBraced s => exact absurd trivial hcu
        | plain s => trivial
        | hex d1 d2 => trivial
        | esc cc => trivial
      have hv2 : ∀ c2 ∈ cs2, chunkValid c2 := fun c2 hm => hv c2 (List.mem_cons_of_mem c hm)
      have hu2 : ∃ c2 ∈ cs2, isUniChunk c2 := by
        obtain ⟨c0, hc0, hcu0⟩ := hu
        rcases List.mem_cons.mp hc0 with hx | hx
        · subst hx
          exact absurd hcu0 hcu
        · exact ⟨c0, hx, hcu0⟩
      rw [specScan_chunk t c _ (hv c (List.mem_cons_self c cs2)) hk, ih hv2 hu2]
      rfl

/-! ## Step lemmas for the scanning loop -/

theorem scanLoop_zero (t : LuaTarget) (text : List Nat) (ts head start : Nat) (buffer : List Nat) :
    scanLoop t text ts 0 head start buffer = ⟨-1, start, buffer, 0⟩ := rfl

theorem scanLoop_none (t : LuaTarget) (text : List Nat) (ts fuel head start : Nat)
    (buffer : List Nat) (hidx : jsIndexOf text head = none) :
    scanLoop t text ts (fuel + 1) head start buffer = ⟨-1, start, buffer, 0⟩ := by
  simp only [scanLoop, hidx]

theorem scanLoop_x_unsup (t : LuaTarget) (text : List Nat) (ts fuel head start i : Nat)
    (buffer : List Nat) (hidx : jsIndexOf text head = some i)
    (hget : text.get? (i + 1) = some 120) (ht : hexUnsupported t = true) :
    scanLoop t text ts (fuel + 1) head start buffer =
      scanLoop t text ts fuel (i + 4) (i + 4)
        (buffer ++ jsSlice text start i ++ (92 :: hexEscToken (jsSlice text (i + 2) (i + 4)))) := by
  simp only [scanLoop, hidx, hget, ht, if_pos]

theorem scanLoop_x_sup (t : LuaTarget) (text : List Nat) (ts fuel head start i : Nat)
    (buffer : List Nat) (hidx : jsIndexOf text head = some i)
    (hget : text.get? (i + 1) = some 120) (ht : hexUnsupported t = false) :
    scanLoop t text ts (fuel + 1) head start buffer =
      scanLoop t text ts fuel (i + 2) start buffer := by
  simp only [scanLoop, hidx, hget, ht, Bool.false_eq_true, if_false]

theorem scanLoop_u_unsup (t : LuaTarget) (text : List Nat) (ts fuel head start i : Nat)
    (buffer : List Nat) (hidx : jsIndexOf text head = some i)
    (hget : text.get? (i + 1) = some 117) (ht : unicodeUnsupported t = true) :
    scanLoop t text ts (fuel + 1) head start buffer = ⟨(i : Int) + 1, ts, buffer, 1⟩ := by
  simp only [scanLoop, hidx, hget, ht, if_pos]

theorem scanLoop_u_brace (t : LuaTarget) (text : List Nat) (ts fuel head start i : Nat)
    (buffer : List Nat) (hidx : jsIndexOf text head = some i)
    (hget : text.get? (i + 1) = some 117) (ht : unicodeUnsupported t = false)
    (hbr : text.get? (i + 2) = some 123) :
    scanLoop t text ts (fuel + 1) head start buffer =
      scanLoop t text ts fuel (i + 2) start buffer := by
  simp only [scanLoop, hidx, hget, ht, Bool.false_eq_true, if_false, hbr, if_pos]

theorem scanLoop_u_rewrite (t : LuaTarget) (text : List Nat) (ts fuel head start i : Nat)
    (buffer : List Nat) (hidx : jsIndexOf text head = some i)
    (hget : text.get? (i + 1) = some 117) (ht : unicodeUnsupported t = false)
    (hbr : text.get? (i + 2) ≠ some 123) :
    scanLoop t text ts (fuel + 1) head start buffer =
      scanLoop t text ts fuel (i + 6) (i + 6)
        (buffer ++ jsSlice text start i ++
          (92 :: 117 :: 123 :: (jsSlice text (i + 2) (i + 6) ++ [125]))) := by
  simp only [scanLoop, hidx, hget, ht, Bool.false_eq_true, if_false, hbr]

theorem scanLoop_other (t : LuaTarget) (text : List Nat) (ts fuel head start i : Nat)
    (buffer : List Nat) (hidx : jsIndexOf text head = some i)
    (hget : text.get? (i + 1) = none ∨ ∃ c, text.get? (i + 1) = some c ∧ c ≠ 120 ∧ c ≠ 117) :
    scanLoop t text ts (fuel + 1) head start buffer =
      scanLoop t text ts fuel (i + 2) start buffer := by
  rcases hget with hn | ⟨c, hc, h120, h117⟩
  · simp only [scanLoop, hidx, hn]
  · simp only [scanLoop, hidx, hc]
    split
    · rename_i heq
      injection heq with h2
      exact absurd h2 h120
    · rename_i heq
      injection heq with h2
      exact absurd h2 h117
    · rfl

/-! ## Equivalence of the fuelled loop with the structural scan -/

theorem scanLoop_to_spec (t : LuaTarget) (text : List Nat) (ts : Nat) :
    ∀ fuel head start buffer, text.length + 2 ≤ head + 2 * fuel → start ≤ head →
      (match specScan t (text.drop head) with
       | some out =>
         ∃ st bf, scanLoop t text ts fuel head start buffer = ⟨-1, st, bf, 0⟩ ∧
           bf ++ jsSlice text st text.length = buffer ++ jsSlice text start head ++ out ∧
           ((st = start ∧ bf = buffer) ∨ head < st)
       | none => ∃ hd bf, scanLoop t text ts fuel head start buffer = ⟨hd, ts, bf, 1⟩) := by
  intro fuel
  induction fuel with
  | zero =>
    intro head start buffer hfuel hsh
    have hdrop : text.drop head = [] := List.drop_eq_nil_of_le (by omega)
    rw [hdrop, specScan_nil]
    refine ⟨start, buffer, scanLoop_zero t text ts head start buffer, ?_, Or.inl ⟨rfl, rfl⟩⟩
    rw [List.append_nil, jsSlice_of_length_le text start head (by omega),
      jsSlice_of_length_le text start text.length (by omega)]
  | succ fuel ih =>
    intro head start buffer hfuel hsh
    cases hidx : jsIndexOf text head with
    | none =>
      have hmem : 92 ∉ text.drop head := jsIndexOf_none hidx
      rw [specScan_plain t hmem]
      refine ⟨start, buffer, scanLoop_none t text ts fuel head start buffer hidx, ?_,
        Or.inl ⟨rfl, rfl⟩⟩
      by_cases hlen : head ≤ text.length
      · have h1 : text.drop head = jsSlice text head text.length :=
          (jsSlice_of_length_le text head text.length (le_refl _)).symm
        rw [h1, List.append_assoc, jsSlice_append text start head text.length hsh hlen]
      · have hd2 : text.drop head = [] := List.drop_eq_nil_of_le (by omega)
        rw [hd2, List.append_nil, jsSlice_of_length_le text start head (by omega),
          jsSlice_of_length_le text start text.length (by omega)]
    | some i =>
      obtain ⟨hhi, hilen, hgi, hfree⟩ := jsIndexOf_some hidx
      have hdropHead : text.drop head = jsSlice text head i ++ text.drop i :=
        drop_eq_slice_append text head i hhi
      have hdropI : text.drop i = 92 :: text.drop (i + 1) := drop_eq_cons_of_get? hgi
      have hplain : ∀ o : Option (List Nat), specScan t (text.drop i) = o →
          specScan t (text.drop head) = Option.map (fun x => jsSlice text head i ++ x) o := by
        intro o ho
        rw [hdropHead, specScan_append_plain t _ hfree, ho]
      have e4 : jsSlice text start i = jsSlice text start head ++ jsSlice text head i :=
        (jsSlice_append text start head i hsh hhi).symm
      cases hnext : text.get? (i + 1) with
      | none =>
        have hlen1 : text.length ≤ i + 1 := List.get?_eq_none.mp hnext
        have hdrop1 : text.drop (i + 1) = [] := List.drop_eq_nil_of_le hlen1
        have hspec : specScan t (text.drop head) = some (jsSlice text head i ++ [92]) := by
          have := hplain (some [92]) (by rw [hdropI, hdrop1]; exact specScan_bs_only t)
          rw [this]
          rfl
        rw [hspec]
        have hloop := scanLoop_other t text ts fuel head start i buffer hidx (Or.inl hnext)
        have hih := ih (i + 2) start buffer (by omega) (by omega)
        have hdrop2 : text.drop (i + 2) = [] := List.drop_eq_nil_of_le (by omega)
        rw [hdrop2, specScan_nil] at hih
        obtain ⟨st, bf, heq, hrel, hdisj⟩ := hih
        refine ⟨st, bf, by rw [hloop]; exact heq, ?_, ?_⟩
        · rw [hrel, List.append_nil]
          have e1 : jsSlice text start (i + 2) = text.drop start :=
            jsSlice_of_length_le text start (i + 2) (by omega)
          have e2 : jsSlice text start (i + 1) = text.drop start :=
            jsSlice_of_length_le text start (i + 1) (by omega)
          have e3 : jsSlice text start (i + 1) = jsSlice text start i ++ [92] :=
            jsSlice_cons_of_get? start (by omega) hgi
          rw [e1, ← e2, e3, e4, List.append_assoc, List.append_assoc]
        · rcases hdisj with ⟨hs, hb⟩ | hlt
          · exact Or.inl ⟨hs, hb⟩
          · exact Or.inr (by omega)
      | some c =>
        have hdrop1 : text.drop (i + 1) = c :: text.drop (i + 2) := drop_eq_cons_of_get? hnext
        by_cases hc120 : c = 120
        · subst hc120
          by_cases ht : hexUnsupported t = true
          · -- hex rewrite
            have htake : (text.drop (i + 2)).take 2 = jsSlice text (i + 2) (i + 4) := by
              unfold jsSlice
              congr 1
              omega
            have hdrop4 : (text.drop (i + 2)).drop 2 = text.drop (i + 4) := by
              rw [List.drop_drop]
            have hspecI : specScan t (text.drop i) =
                Option.map (fun o => 92 :: (hexEscToken (jsSlice text (i + 2) (i + 4)) ++ o))
                  (specScan t (text.drop (i + 4))) := by
              rw [hdropI, hdrop1, specScan_bs_x_unsup t _ ht, htake, hdrop4]
            have hspec := hplain _ hspecI
            have hloop := scanLoop_x_unsup t text ts fuel head start i buffer hidx hnext ht
            have hih := ih (i + 4) (i + 4)
              (buffer ++ jsSlice text start i ++ (92 :: hexEscToken (jsSlice text (i + 2) (i + 4))))
              (by omega) (le_refl _)
            cases hrest : specScan t (text.drop (i + 4)) with
            | some out2 =>
              rw [hrest] at hih
              obtain ⟨st, bf, heq, hrel, hdisj⟩ := hih
              have hspec2 : specScan t (text.drop head) =
                  some (jsSlice text head i ++
                    (92 :: (hexEscToken (jsSlice text (i + 2) (i + 4)) ++ out2))) := by
                rw [hspec, hrest]
                rfl
              rw [hspec2]
              refine ⟨st, bf, by rw [hloop]; exact heq, ?_, ?_⟩
              · rw [hrel, jsSlice_self, List.append_nil, e4]
                simp [List.append_assoc]
              · rcases hdisj with ⟨hs, hb⟩ | hlt
                · exact Or.inr (by omega)
                · exact Or.inr (by omega)
            | none =>
              rw [hrest] at hih
              obtain ⟨hd, bf, heq⟩ := hih
              have hspec2 : specScan t (text.drop head) = none := by
                rw [hspec, hrest]
                rfl
              rw [hspec2]
              exact ⟨hd, bf, by rw [hloop]; exact heq⟩
          · -- hex pass-through
            have ht2 : hexUnsupported t = false := by
              cases hx : hexUnsupported t
              · rfl
              · exact absurd hx ht
            have hspecI : specScan t (text.drop i) =
                Option.map (fun o => 92 :: 120 :: o) (specScan t (text.drop (i + 2))) := by
              rw [hdropI, hdrop1]
              exact specScan_bs_x_sup t _ ht2
            have hspec := hplain _ hspecI
            have hloop := scanLoop_x_sup t text ts fuel head start i buffer hidx hnext ht2
            have hih := ih (i + 2) start buffer (by omega) (by omega)
            have epair : jsSlice text i (i + 2) = [92, 120] := jsSlice_pair_of_get? hgi hnext
            cases hrest : specScan t (text.drop (i + 2)) with
            | some out2 =>
              rw [hrest] at hih
              obtain ⟨st, bf, heq, hrel, hdisj⟩ := hih
              have hspec2 : specScan t (text.drop head) =
                  some (jsSlice text head i ++ (92 :: 120 :: out2)) := by
                rw [hspec, hrest]
                rfl
              rw [hspec2]
              refine ⟨st, bf, by rw [hloop]; exact heq, ?_, ?_⟩
              · rw [hrel]
                have e5 : jsSlice text start (i + 2) = jsSlice text start i ++ [92, 120] := by
                  rw [← jsSlice_append text start i (i + 2) (by omega) (by omega), epair]
                rw [e5, e4]
                simp [List.append_assoc]
              · rcases hdisj with ⟨hs, hb⟩ | hlt
                · exact Or.inl ⟨hs, hb⟩
                · exact Or.inr (by omega)
            | none =>
              rw [hrest] at hih
              obtain ⟨hd, bf, heq⟩ := hih
              have hspec2 : specScan t (text.drop head) = none := by
                rw [hspec, hrest]
                rfl
              rw [hspec2]
              exact ⟨hd, bf, by rw [hloop]; exact heq⟩
        · by_cases hc117 : c = 117
          · subst hc117
            by_cases ht : unicodeUnsupported t = true
            · -- abort
              have hspec2 : specScan t (text.drop head) = none := by
                have := hplain none (by rw [hdropI, hdrop1]; exact specScan_bs_u_unsup t _ ht)
                rw [this]
                rfl
              rw [hspec2]
              exact ⟨(i : Int) + 1, buffer,
                scanLoop_u_unsup t text ts fuel head start i buffer hidx hnext ht⟩
            · have ht2 : unicodeUnsupported t = false := by
                cases hx : unicodeUnsupported t
                · rfl
                · exact absurd hx ht
              by_cases hbr : text.get? (i + 2) = some 123
              · -- braced: skip
                have hdrop2c : text.drop (i + 2) = 123 :: text.drop (i + 3) :=
                  drop_eq_cons_of_get? hbr
                have hspecI : specScan t (text.drop i) =
                    Option.map (fun o => 92 :: 117 :: 123 :: o) (specScan t (text.drop (i + 3))) := by
                  rw [hdropI, hdrop1, hdrop2c]
                  exact specScan_bs_u_brace t _ ht2
                have hspec := hplain _ hspecI
                have hloop := scanLoop_u_brace t text ts fuel head start i buffer hidx hnext ht2 hbr
                have hih := ih (i + 2) start buffer (by omega) (by omega)
                have epair : jsSlice text i (i + 2) = [92, 117] := jsSlice_pair_of_get? hgi hnext
                cases hrest : specScan t (text.drop (i + 3)) with
                | some out3 =>
                  have hmid : specScan t (text.drop (i + 2)) = some (123 :: out3) := by
                    rw [hdrop2c, specScan_cons_plain t _ (by omega), hrest]
                    rfl
                  rw [hmid] at hih
                  obtain ⟨st, bf, heq, hrel, hdisj⟩ := hih
                  have hspec2 : specScan t (text.drop head) =
                      some (jsSlice text head i ++ (92 :: 117 :: 123 :: out3)) := by
                    rw [hspec, hrest]
                    rfl
                  rw [hspec2]
                  refine ⟨st, bf, by rw [hloop]; exact heq, ?_, ?_⟩
                  · rw [hrel]
                    have e5 : jsSlice text start (i + 2) = jsSlice text start i ++ [92, 117] := by
                      rw [← jsSlice_append text start i (i + 2) (by omega) (by omega), epair]
                    rw [e5, e4]
                    simp [List.append_assoc]
                  · rcases hdisj with ⟨hs, hb⟩ | hlt
                    · exact Or.inl ⟨hs, hb⟩
                    · exact Or.inr (by omega)
                | none =>
                  have hmid : specScan t (text.drop (i + 2)) = none := by
                    rw [hdrop2c, specScan_cons_plain t _ (by omega), hrest]
                    rfl
                  rw [hmid] at hih
                  obtain ⟨hd, bf, heq⟩ := hih
                  have hspec2 : specScan t (text.drop head) = none := by
                    rw [hspec, hrest]
                    rfl
                  rw [hspec2]
                  exact ⟨hd, bf, by rw [hloop]; exact heq⟩
              · -- bare unicode: rewrite to braced
                have hb2 : (text.drop (i + 2)).head? ≠ some 123 := by
                  rw [head?_drop_eq_get?]
                  exact hbr
                have htake : (text.drop (i + 2)).take 4 = jsSlice text (i + 2) (i + 6) := by
                  unfold jsSlice
                  congr 1
                  omega
                have hdrop6 : (text.drop (i + 2)).drop 4 = text.drop (i + 6) := by
                  rw [List.drop_drop]
                have hspecI : specScan t (text.drop i) =
                    Option.map (fun o => 92 :: 117 :: 123 ::
                        (jsSlice text (i + 2) (i + 6) ++ 125 :: o))
                      (specScan t (text.drop (i + 6))) := by
                  rw [hdropI, hdrop1, specScan_bs_u_rewrite t _ ht2 hb2, htake, hdrop6]
                have hspec := hplain _ hspecI
                have hloop := scanLoop_u_rewrite t text ts fuel head start i buffer hidx hnext ht2 hbr
                have hih := ih (i + 6) (i + 6)
                  (buffer ++ jsSlice text start i ++
                    (92 :: 117 :: 123 :: (jsSlice text (i + 2) (i + 6) ++ [125])))
                  (by omega) (le_refl _)
                cases hrest : specScan t (text.drop (i + 6)) with
                | some out2 =>
                  rw [hrest] at hih
                  obtain ⟨st, bf, heq, hrel, hdisj⟩ := hih
                  have hspec2 : specScan t (text.drop head) =
                      some (jsSlice text head i ++
                        (92 :: 117 :: 123 :: (jsSlice text (i + 2) (i + 6) ++ 125 :: out2))) := by
                    rw [hspec, hrest]
                    rfl
                  rw [hspec2]
                  refine ⟨st, bf, by rw [hloop]; exact heq, ?_, ?_⟩
                  · rw [hrel, jsSlice_self, List.append_nil, e4]
                    simp [List.append_assoc]
                  · rcases hdisj with ⟨hs, hb⟩ | hlt
                    · exact Or.inr (by omega)
                    · exact Or.inr (by omega)
                | none =>
                  rw [hrest] at hih
                  obtain ⟨hd, bf, heq⟩ := hih
                  have hspec2 : specScan t (text.drop head) = none := by
                    rw [hspec, hrest]
                    rfl
                  rw [hspec2]
                  exact ⟨hd, bf, by rw [hloop]; exact heq⟩
          · -- other escape: skip two units
            have hspecI : specScan t (text.drop i) =
                Option.map (fun o => 92 :: c :: o) (specScan t (text.drop (i + 2))) := by
              rw [hdropI, hdrop1]
              exact specScan_bs_other t _ hc120 hc117
            have hspec := hplain _ hspecI
            have hloop := scanLoop_other t text ts fuel head start i buffer hidx
              (Or.inr ⟨c, hnext, hc120, hc117⟩)
            have hih := ih (i + 2) start buffer (by omega) (by omega)
            have epair : jsSlice text i (i + 2) = [92, c] := jsSlice_pair_of_get? hgi hnext
            cases hrest : specScan t (text.drop (i + 2)) with
            | some out2 =>
              rw [hrest] at hih
              obtain ⟨st, bf, heq, hrel, hdisj⟩ := hih
              have hspec2 : specScan t (text.drop head) =
                  some (jsSlice text head i ++ (92 :: c :: out2)) := by
                rw [hspec, hrest]
                rfl
              rw [hspec2]
              refine ⟨st, bf, by rw [hloop]; exact heq, ?_, ?_⟩
              · rw [hrel]
                have e5 : jsSlice text start (i + 2) = jsSlice text start i ++ [92, c] := by
                  rw [← jsSlice_append text start i (i + 2) (by omega) (by omega), epair]
                rw [e5, e4]
                simp [List.append_assoc]
              · rcases hdisj with ⟨hs, hb⟩ | hlt
                · exact Or.inl ⟨hs, hb⟩
                · exact Or.inr (by omega)
            | none =>
              rw [hrest] at hih
              obtain ⟨hd, bf, heq⟩ := hih
              have hspec2 : specScan t (text.drop head) = none := by
                rw [hspec, hrest]
                rfl
              rw [hspec2]
              exact ⟨hd, bf, by rw [hloop]; exact heq⟩

theorem transformText_eq_spec (t : LuaTarget) (text : List Nat) :
    transformText t text =
      match specScan t text with
      | some out => (out, 0)
      | none => (text, 1) := by
  unfold transformText rewriteCore
  have h := scanLoop_to_spec t text 0 (text.length + 2) 0 0 [] (by omega) (le_refl 0)
  rw [List.drop_zero] at h
  cases hs : specScan t text with
  | some out =>
    rw [hs] at h
    obtain ⟨st, bf, heq, hrel, hdisj⟩ := h
    rw [jsSlice_self, List.append_nil, List.nil_append] at hrel
    rw [heq]
    rcases hdisj with ⟨hs0, hb0⟩ | hlt
    · subst hs0
      subst hb0
      rw [jsSlice_zero_length] at hrel
      rw [List.nil_append] at hrel
      simp [jsSlice_zero_length, hrel]
    · have hne : st ≠ 0 := by omega
      simp [hne, hrel]
  | none =>
    rw [hs] at h
    obtain ⟨hd, bf, heq⟩ := h
    rw [heq]
    simp [jsSlice_zero_length]

/-! ## Helper lemmas for the code-point pairing -/

theorem pairCodePoint_not_high {u : Nat} (nx : Option Nat) (h : ¬(0xD800 ≤ u ∧ u ≤ 0xDBFF)) :
    pairCodePoint u nx = u := by
  unfold pairCodePoint
  rw [if_neg h]

theorem pairCodePoint_high_low {u v : Nat} (hu : 0xD800 ≤ u ∧ u ≤ 0xDBFF)
    (hv : 0xDC00 ≤ v ∧ v ≤ 0xDFFF) : pairCodePoint u (some v) = combineSurrogates u v := by
  unfold pairCodePoint
  rw [if_pos hu]
  simp [hv]

theorem pairCodePoint_high_notlow {u v : Nat} (hu : 0xD800 ≤ u ∧ u ≤ 0xDBFF)
    (hv : ¬(0xDC00 ≤ v ∧ v ≤ 0xDFFF)) : pairCodePoint u (some v) = u := by
  unfold pairCodePoint
  rw [if_pos hu]
  simp [hv]

theorem pairCodePoint_high_none {u : Nat} (hu : 0xD800 ≤ u ∧ u ≤ 0xDBFF) :
    pairCodePoint u none = u := by
  unfold pairCodePoint
  rw [if_pos hu]

theorem pairCodePoint_eq_of_le {u : Nat} {nx : Option Nat}
    (h : pairCodePoint u nx ≤ 0xFF) : pairCodePoint u nx = u := by
  by_cases hu : 0xD800 ≤ u ∧ u ≤ 0xDBFF
  · cases nx with
    | none => exact pairCodePoint_high_none hu
    | some v =>
      by_cases hv : 0xDC00 ≤ v ∧ v ≤ 0xDFFF
      · rw [pairCodePoint_high_low hu hv] at h
        unfold combineSurrogates at h
        omega
      · exact pairCodePoint_high_notlow hu hv
  · exact pairCodePoint_not_high nx hu

/-! ## Equivalence of the encoder loop with its structural restatement -/

theorem encodeLoop_to_spec (str : List Nat) :
    ∀ fuel head tail buffer, str.length ≤ tail + fuel → head ≤ tail →
      encodeUTF8Loop str fuel head tail buffer =
        buffer ++ jsSlice str head tail ++ encodeSpec (str.drop tail) := by
  intro fuel
  induction fuel with
  | zero =>
    intro head tail buffer hf hh
    have hdrop : str.drop tail = [] := List.drop_eq_nil_of_le (by omega)
    rw [hdrop]
    simp [encodeUTF8Loop, encodeSpec]
  | succ fuel ih =>
    intro head tail buffer hf hh
    by_cases hlt : tail < str.length
    · obtain ⟨u, hu⟩ : ∃ u, str.get? tail = some u := by
        cases hg : str.get? tail with
        | none => exact absurd (List.get?_eq_none.mp hg) (by omega)
        | some u => exact ⟨u, rfl⟩
      have hdropT : str.drop tail = u :: str.drop (tail + 1) := drop_eq_cons_of_get? hu
      have hcp : jsCodePointAt str tail = pairCodePoint u (str.get? (tail + 1)) := by
        unfold jsCodePointAt
        rw [hu]
      have hhead : (str.drop (tail + 1)).head? = str.get? (tail + 1) := head?_drop_eq_get? _ _
      have hspec : encodeSpec (str.drop tail) =
          (if pairCodePoint u (str.get? (tail + 1)) > 0xFF then
            (if pairCodePoint u (str.get? (tail + 1)) < 0xDC00 ∨
                pairCodePoint u (str.get? (tail + 1)) > 0xDFFF then
              encodeCodePoint (pairCodePoint u (str.get? (tail + 1)))
            else []) ++ encodeSpec (str.drop (tail + 1))
          else u :: encodeSpec (str.drop (tail + 1))) := by
        rw [hdropT]
        simp only [encodeSpec, hhead]
      by_cases hcpFF : pairCodePoint u (str.get? (tail + 1)) > 0xFF
      · have hloop : encodeUTF8Loop str (fuel + 1) head tail buffer =
            encodeUTF8Loop str fuel (tail + 1) (tail + 1)
              ((buffer ++ jsSlice str head tail) ++
                (if pairCodePoint u (str.get? (tail + 1)) < 0xDC00 ∨
                    pairCodePoint u (str.get? (tail + 1)) > 0xDFFF then
                  encodeCodePoint (pairCodePoint u (str.get? (tail + 1)))
                else [])) := by
          simp only [encodeUTF8Loop, hlt, if_pos, hcp]
          rw [if_pos hcpFF]
          by_cases hsurr : pairCodePoint u (str.get? (tail + 1)) < 0xDC00 ∨
              pairCodePoint u (str.get? (tail + 1)) > 0xDFFF
          · rw [if_pos hsurr, if_pos hsurr]
          · rw [if_neg hsurr, if_neg hsurr, List.append_nil]
        rw [hloop, ih (tail + 1) (tail + 1) _ (by omega) (le_refl _), hspec,
          jsSlice_self, if_pos hcpFF]
        simp [List.append_assoc]
      · have hcpu : pairCodePoint u (str.get? (tail + 1)) = u :=
          pairCodePoint_eq_of_le (by omega)
        have hloop : encodeUTF8Loop str (fuel + 1) head tail buffer =
            encodeUTF8Loop str fuel head (tail + 1) buffer := by
          simp only [encodeUTF8Loop, hlt, if_pos, hcp]
          rw [if_neg hcpFF]
        rw [hloop, ih head (tail + 1) buffer (by omega) (by omega), hspec, if_neg hcpFF,
          jsSlice_cons_of_get? head hh hu]
        simp [List.append_assoc]
    · have hdrop : str.drop tail = [] := List.drop_eq_nil_of_le (by omega)
      have hloop : encodeUTF8Loop str (fuel + 1) head tail buffer =
          buffer ++ jsSlice str head tail := by
        simp only [encodeUTF8Loop, hlt, if_false]
      rw [hloop, hdrop]
      simp [encodeSpec]

theorem encodeUTF8_eq_spec (str : List Nat) : encodeUTF8 str = encodeSpec str := by
  unfold encodeUTF8
  rw [encodeLoop_to_spec str str.length 0 0 [] (by omega) (le_refl 0), jsSlice_self]
  simp

/-! ## Properties of the structural encoder -/

theorem encodeSpec_cons (u : Nat) (rest : List Nat) :
    encodeSpec (u :: rest) =
      if pairCodePoint u rest.head? > 0xFF then
        (if pairCodePoint u rest.head? < 0xDC00 ∨ pairCodePoint u rest.head? > 0xDFFF then
          encodeCodePoint (pairCodePoint u rest.head?)
        else []) ++ encodeSpec rest
      else u :: encodeSpec rest := rfl

theorem encodeSpec_all_le (s : List Nat) (h : ∀ u ∈ s, u ≤ 0xFF) : encodeSpec s = s := by
  induction s with
  | nil => rfl
  | cons u rest ih =>
    have hu : u ≤ 0xFF := h u (List.mem_cons_self u rest)
    have hcp : pairCodePoint u rest.head? = u :=
      pairCodePoint_not_high rest.head? (by omega)
    rw [encodeSpec_cons, hcp, if_neg (by omega), ih (fun v hv => h v (List.mem_cons_of_mem u hv))]

theorem encodeSpec_cons_low {ls : Nat} (suf : List Nat) (hls : 0xDC00 ≤ ls ∧ ls ≤ 0xDFFF) :
    encodeSpec (ls :: suf) = encodeSpec suf := by
  have hcp : pairCodePoint ls suf.head? = ls := pairCodePoint_not_high suf.head? (by omega)
  rw [encodeSpec_cons, hcp, if_pos (by omega), if_neg (by omega), List.nil_append]

theorem encodeSpec_pair {hi lo : Nat} (suf : List Nat) (hhi : 0xD800 ≤ hi ∧ hi ≤ 0xDBFF)
    (hlo : 0xDC00 ≤ lo ∧ lo ≤ 0xDFFF) :
    encodeSpec (hi :: lo :: suf) =
      encodeCodePoint (combineSurrogates hi lo) ++ encodeSpec suf := by
  have hcp : pairCodePoint hi (lo :: suf).head? = combineSurrogates hi lo :=
    pairCodePoint_high_low hhi hlo
  have hcomb : 0x10000 ≤ combineSurrogates hi lo := by
    unfold combineSurrogates
    omega
  rw [encodeSpec_cons, hcp, if_pos (by omega), if_pos (by omega),
    encodeSpec_cons_low suf hlo]

theorem encodeSpec_append (pre s : List Nat)
    (h : ∀ v, s.head? = some v → ¬(0xDC00 ≤ v ∧ v ≤ 0xDFFF)) :
    encodeSpec (pre ++ s) = encodeSpec pre ++ encodeSpec s := by
  induction pre with
  | nil => rfl
  | cons u pre2 ih =>
    cases pre2 with
    | nil =>
      have hcp : pairCodePoint u ([] ++ s).head? = pairCodePoint u none := by
        by_cases hu : 0xD800 ≤ u ∧ u ≤ 0xDBFF
        · cases hs : s.head? with
          | none => rw [List.nil_append, hs]
          | some v =>
            rw [List.nil_append, hs, pairCodePoint_high_notlow hu (h v hs),
              pairCodePoint_high_none hu]
        · rw [pairCodePoint_not_high _ hu, pairCodePoint_not_high _ hu]
      rw [List.cons_append, encodeSpec_cons, List.nil_append] at *
      rw [hcp]
      have hone : encodeSpec [u] =
          (if pairCodePoint u none > 0xFF then
            (if pairCodePoint u none < 0xDC00 ∨ pairCodePoint u none > 0xDFFF then
              encodeCodePoint (pairCodePoint u none)
            else []) ++ []
          else [u]) := by
        rw [encodeSpec_cons]
        rfl
      rw [hone]
      by_cases hff : pairCodePoint u none > 0xFF
      · rw [if_pos hff, if_pos hff]
        by_cases hsur : pairCodePoint u none < 0xDC00 ∨ pairCodePoint u none > 0xDFFF
        · rw [if_pos hsur]
          simp
        · rw [if_neg hsur]
          simp
      · rw [if_neg hff, if_neg hff]
        rfl
    | cons w pre3 =>
      have hcp : ((w :: pre3) ++ s).head? = (w :: pre3).head? := rfl
      rw [List.cons_append, encodeSpec_cons, hcp, encodeSpec_cons, ih]
      by_cases hff : pairCodePoint u (w :: pre3).head? > 0xFF
      · rw [if_pos hff, if_pos hff]
        simp [List.append_assoc]
      · rw [if_neg hff, if_neg hff]
        rfl

theorem encodeSpec_delete_low {ls : Nat} (hls : 0xDC00 ≤ ls ∧ ls ≤ 0xDFFF) :
    ∀ pre suf, (∀ u, pre.getLast? = some u → ¬(0xD800 ≤ u ∧ u ≤ 0xDBFF)) →
      encodeSpec (pre ++ ls :: suf) = encodeSpec (pre ++ suf) := by
  intro pre
  induction pre with
  | nil =>
    intro suf _
    rw [List.nil_append, List.nil_append]
    exact encodeSpec_cons_low suf hls
  | cons u pre2 ih =>
    intro suf hlast
    cases pre2 with
    | nil =>
      have hu : ¬(0xD800 ≤ u ∧ u ≤ 0xDBFF) := hlast u rfl
      rw [List.cons_append, List.nil_append, List.cons_append, List.nil_append,
        encodeSpec_cons u (ls :: suf), encodeSpec_cons u suf]
      simp only [List.head?_cons]
      rw [pairCodePoint_not_high _ hu, pairCodePoint_not_high _ hu,
        encodeSpec_cons_low suf hls]
    | cons w pre3 =>
      have hlast2 : ∀ v, (w :: pre3).getLast? = some v → ¬(0xD800 ≤ v ∧ v ≤ 0xDBFF) := by
        intro v hv
        exact hlast v (by rw [List.getLast?_cons_cons]; exact hv)
      have hih := ih suf hlast2
      have hL : (u :: w :: pre3) ++ ls :: suf = u :: ((w :: pre3) ++ ls :: suf) := rfl
      have hR : (u :: w :: pre3) ++ suf = u :: ((w :: pre3) ++ suf) := rfl
      rw [hL, hR, encodeSpec_cons u ((w :: pre3) ++ ls :: suf),
        encodeSpec_cons u ((w :: pre3) ++ suf)]
      have hheadL : ((w :: pre3) ++ ls :: suf).head? = some w := rfl
      have hheadR : ((w :: pre3) ++ suf).head? = some w := rfl
      rw [hheadL, hheadR, hih]

/-! ## The encoder against the claim-side byte formulas -/

theorem and_63_of_lt {x : Nat} (h : x < 64) : x &&& 63 = x := by
  have h1 : x &&& 63 = x % 64 := Nat.and_pow_two_sub_one_eq_mod x 6
  omega

theorem and_31_of_lt {x : Nat} (h : x < 32) : x &&& 31 = x := by
  have h1 : x &&& 31 = x % 32 := Nat.and_pow_two_sub_one_eq_mod x 5
  omega

theorem and_15_of_lt {x : Nat} (h : x < 16) : x &&& 15 = x := by
  have h1 : x &&& 15 = x % 16 := Nat.and_pow_two_sub_one_eq_mod x 4
  omega

theorem shiftRight_6_lt {cp : Nat} (h : cp < 0x800) : cp >>> 6 < 32 := by
  have h1 : cp >>> 6 = cp / 2 ^ 6 := Nat.shiftRight_eq_div_pow cp 6
  have h2 : (2 : Nat) ^ 6 = 64 := rfl
  rw [h2] at h1
  omega

theorem shiftRight_12_lt {cp : Nat} (h : cp < 0x10000) : cp >>> 12 < 16 := by
  have h1 : cp >>> 12 = cp / 2 ^ 12 := Nat.shiftRight_eq_div_pow cp 12
  have h2 : (2 : Nat) ^ 12 = 4096 := rfl
  rw [h2] at h1
  omega

theorem shiftRight_18_lt {cp : Nat} (h : cp < 0x400000) : cp >>> 18 < 16 := by
  have h1 : cp >>> 18 = cp / 2 ^ 18 := Nat.shiftRight_eq_div_pow cp 18
  have h2 : (2 : Nat) ^ 18 = 262144 := rfl
  rw [h2] at h1
  omega

theorem encodeCodePoint_eq_escTokens (cp : Nat) (h : cp < 0x400000) :
    encodeCodePoint cp = escTokens (utf8Bytes cp) := by
  unfold encodeCodePoint utf8Bytes escTokens encodeByte byteToString
  by_cases h1 : cp < 0x800
  · rw [if_pos h1, if_pos h1, and_63_of_lt (by have := shiftRight_6_lt h1; omega)]
    simp
  · rw [if_neg h1, if_neg h1]
    by_cases h2 : cp < 0x10000
    · rw [if_pos h2, if_pos h2, and_31_of_lt (by have := shiftRight_12_lt h2; omega)]
      simp
    · rw [if_neg h2, if_neg h2, and_15_of_lt (shiftRight_18_lt h)]
      simp

theorem encodeSpec_eq_specEncode (s : List Nat) (h : ∀ u ∈ s, u < 0x10000) :
    encodeSpec s = specEncode s := by
  induction s using decodePoints.induct with
  | case1 => rfl
  | case2 u =>
    have hu : u < 0x10000 := h u (by simp)
    have h1 : specEncode [u] = specEncodeEmit u := by
      unfold specEncode
      simp [decodePoints]
    have hcpu : pairCodePoint u ([] : List Nat).head? = u := by
      by_cases hh : 0xD800 ≤ u ∧ u ≤ 0xDBFF
      · exact pairCodePoint_high_none hh
      · exact pairCodePoint_not_high _ hh
    rw [encodeSpec_cons, hcpu, h1]
    unfold specEncodeEmit
    by_cases hff : u > 0xFF
    · rw [if_pos hff, if_pos hff]
      by_cases hsur : 0xDC00 ≤ u ∧ u ≤ 0xDFFF
      · rw [if_neg (by omega), if_pos hsur]
        rfl
      · rw [if_pos (by omega), if_neg hsur, encodeCodePoint_eq_escTokens u (by omega)]
        simp
        rfl
    · rw [if_neg hff, if_neg hff]
      rfl
  | case3 u v rest2 hcond ih =>
    obtain ⟨hu, hv⟩ := hcond
    have hu16 : u < 0x10000 := h u (by simp)
    have hrest : ∀ w ∈ rest2, w < 0x10000 := fun w hw => h w (by simp [hw])
    have hcomb4 : combineSurrogates u v < 0x400000 := by
      unfold combineSurrogates
      omega
    have hcomb : 0x10000 ≤ combineSurrogates u v := by
      unfold combineSurrogates
      omega
    rw [encodeSpec_pair rest2 hu hv]
    have hdp0 : decodePoints (u :: v :: rest2) = combineSurrogates u v :: decodePoints rest2 := by
      rw [decodePoints.eq_3]
      rw [if_pos ⟨hu, hv⟩]
    have hdp : specEncode (u :: v :: rest2) =
        specEncodeEmit (combineSurrogates u v) ++ specEncode rest2 := by
      unfold specEncode
      rw [hdp0]
      simp
    rw [hdp, ih hrest]
    have hemit : specEncodeEmit (combineSurrogates u v) = encodeCodePoint (combineSurrogates u v) := by
      unfold specEncodeEmit
      rw [if_pos (by omega), if_neg (by omega), encodeCodePoint_eq_escTokens _ hcomb4]
    rw [hemit]
  | case4 u v rest2 hcond ih =>
    have hu16 : u < 0x10000 := h u (by simp)
    have hrest : ∀ w ∈ v :: rest2, w < 0x10000 := by
      intro w hw
      apply h
      simp at hw ⊢
      tauto
    have hcp : pairCodePoint u ((v :: rest2).head?) = u := by
      by_cases hh : 0xD800 ≤ u ∧ u ≤ 0xDBFF
      · have hv : ¬(0xDC00 ≤ v ∧ v ≤ 0xDFFF) := fun hvv => hcond ⟨hh, hvv⟩
        simp only [List.head?_cons]
        exact pairCodePoint_high_notlow hh hv
      · exact pairCodePoint_not_high _ hh
    have hdp0 : decodePoints (u :: v :: rest2) = u :: decodePoints (v :: rest2) := by
      rw [decodePoints.eq_3]
      rw [if_neg hcond]
    have hdp : specEncode (u :: v :: rest2) = specEncodeEmit u ++ specEncode (v :: rest2) := by
      unfold specEncode
      rw [hdp0]
      simp
    rw [encodeSpec_cons, hcp, ih hrest, hdp]
    unfold specEncodeEmit
    by_cases hff : u > 0xFF
    · rw [if_pos hff, if_pos hff]
      by_cases hsur : 0xDC00 ≤ u ∧ u ≤ 0xDFFF
      · rw [if_neg (by omega), if_pos hsur]
      · rw [if_pos (by omega), if_neg hsur, encodeCodePoint_eq_escTokens u (by omega)]
    · rw [if_neg hff, if_neg hff]
      rfl

/-! ## The rewritten text decomposes into chunks again (for idempotence) -/

theorem renderChunks_append (cs1 cs2 : List Chunk) :
    renderChunks (cs1 ++ cs2) = renderChunks cs1 ++ renderChunks cs2 := by
  simp [renderChunks]

theorem rewriteChunks_append (t : LuaTarget) (cs1 cs2 : List Chunk) :
    rewriteChunks t (cs1 ++ cs2) = rewriteChunks t cs1 ++ rewriteChunks t cs2 := by
  simp [rewriteChunks]

theorem rewriteChunk_decomp (t : LuaTarget) (c : Chunk) (hv : chunkValid c) (hk : chunkOk t c) :
    ∃ cs2 : List Chunk, renderChunks cs2 = rewriteChunk t c ∧
      (∀ d ∈ cs2, chunkValid d ∧ chunkOk t d) ∧ rewriteChunks t cs2 = rewriteChunk t c := by
  cases c with
  | plain s =>
    refine ⟨[Chunk.plain s], by simp [renderChunks, renderChunk, rewriteChunk], ?_,
      by simp [rewriteChunks, rewriteChunk]⟩
    intro d hd
    simp at hd
    subst hd
    exact ⟨hv, trivial⟩
  | hex d1 d2 =>
    by_cases ht : hexUnsupported t = true
    · obtain ⟨hne, hdig⟩ := decimalUnits_spec (hexDigitVal d1 * 16 + hexDigitVal d2)
      cases hd : decimalUnits (hexDigitVal d1 * 16 + hexDigitVal d2) with
      | nil => exact absurd hd hne
      | cons f rest =>
        have hf : 48 ≤ f ∧ f ≤ 57 := hdig f (by rw [hd]; exact List.mem_cons_self f rest)
        have hrest : ∀ u ∈ rest, 48 ≤ u ∧ u ≤ 57 := by
          intro u hu
          exact hdig u (by rw [hd]; exact List.mem_cons_of_mem f hu)
        refine ⟨[Chunk.esc f, Chunk.plain rest], ?_, ?_, ?_⟩
        · simp [renderChunks, renderChunk, rewriteChunk, ht, hd]
        · intro d hdm
          simp at hdm
          rcases hdm with hdm | hdm
          · subst hdm
            exact ⟨⟨by omega, by omega⟩, trivial⟩
          · subst hdm
            refine ⟨?_, trivial⟩
            intro hmem
            have := hrest 92 hmem
            omega
        · simp [rewriteChunks, rewriteChunk, ht, hd]
    · refine ⟨[Chunk.hex d1 d2], ?_, ?_, ?_⟩
      · simp [renderChunks, renderChunk, rewriteChunk, ht]
      · intro d hdm
        simp at hdm
        subst hdm
        exact ⟨hv, trivial⟩
      · simp [rewriteChunks, rewriteChunk, ht]
  | uniBare a b c2 d =>
    obtain ⟨h1, h2, h3, h4⟩ := hv
    refine ⟨[Chunk.uniBraced [a, b, c2, d]], ?_, ?_, ?_⟩
    · simp [renderChunks, renderChunk, rewriteChunk]
    · intro e he
      simp at he
      subst he
      refine ⟨?_, hk⟩
      intro u hu
      simp at hu
      rcases hu with hu | hu | hu | hu <;> subst hu <;> assumption
    · simp [rewriteChunks, rewriteChunk]
  | uniBraced s =>
    refine ⟨[Chunk.uniBraced s], ?_, ?_, ?_⟩
    · simp [renderChunks, renderChunk, rewriteChunk]
    · intro e he
      simp at he
      subst he
      exact ⟨hv, hk⟩
    · simp [rewriteChunks, rewriteChunk]
  | esc cc =>
    refine ⟨[Chunk.esc cc], ?_, ?_, ?_⟩
    · simp [renderChunks, renderChunk, rewriteChunk]
    · intro e he
      simp at he
      subst he
      exact ⟨hv, trivial⟩
    · simp [rewriteChunks, rewriteChunk]

theorem rewriteChunks_decomp (t : LuaTarget) (cs : List Chunk)
    (h : ∀ c ∈ cs, chunkValid c ∧ chunkOk t c) :
    ∃ cs2 : List Chunk, renderChunks cs2 = rewriteChunks t cs ∧
      (∀ d ∈ cs2, chunkValid d ∧ chunkOk t d) ∧ rewriteChunks t cs2 = rewriteChunks t cs := by
  induction cs with
  | nil => exact ⟨[], rfl, by simp, rfl⟩
  | cons c cs1 ih =>
    obtain ⟨ca, hra, hva, hwa⟩ :=
      rewriteChunk_decomp t c (h c (List.mem_cons_self c cs1)).1 (h c (List.mem_cons_self c cs1)).2
    obtain ⟨cb, hrb, hvb, hwb⟩ := ih (fun d hd => h d (List.mem_cons_of_mem c hd))
    refine ⟨ca ++ cb, ?_, ?_, ?_⟩
    · rw [renderChunks_append, hra, hrb]
      have : rewriteChunks t (c :: cs1) = rewriteChunk t c ++ rewriteChunks t cs1 := by
        simp [rewriteChunks]
      rw [this]
    · intro d hd
      rcases List.mem_append.mp hd with hx | hx
      · exact hva d hx
      · exact hvb d hx
    · rw [rewriteChunks_append, hwa, hwb]
      simp [rewriteChunks]

theorem specScan_rewrite_fixpoint (t : LuaTarget) (cs : List Chunk)
    (h : ∀ c ∈ cs, chunkValid c ∧ chunkOk t c) :
    specScan t (rewriteChunks t cs) = some (rewriteChunks t cs) := by
  obtain ⟨cs2, hr, hv, hw⟩ := rewriteChunks_decomp t cs h
  rw [← hr, specScan_chunks t cs2 hv, hw, hr]

/-! ## Claim theorems -/

/-- C1: for every literal rewritten against a target that supports no Unicode
escape form (Lua 5.0/5.1/5.2), encountering a backslash-u escape pushes exactly
one diagnostic, scanning stops, and the returned text equals the original
literal span exactly; partially built rewrites of earlier tokens are discarded. -/
theorem c1_unicode_abort_returns_original (t : LuaTarget) (text : List Nat)
    (ht : unicodeUnsupported t = true) (hab : scanAborts t text) :
    transformText t text = (text, 1) := by
  unfold scanAborts at hab
  rw [transformText_eq_spec, hab]

/-- C1 witness: on Lua 5.1 the literal backslash-x41-backslash-u0041 rewrites its
hex escape into the buffer first, then aborts on the Unicode escape; the result
is the untouched original text with exactly one diagnostic. -/
theorem c1_unicode_abort_returns_original_witness :
    unicodeUnsupported LuaTarget.lua51 = true ∧
    scanAborts LuaTarget.lua51 [92, 120, 52, 49, 92, 117, 48, 48, 52, 49] ∧
    transformText LuaTarget.lua51 [92, 120, 52, 49, 92, 117, 48, 48, 52, 49] =
      ([92, 120, 52, 49, 92, 117, 48, 48, 52, 49], 1) :=
  ⟨by decide, by decide,
    c1_unicode_abort_returns_original LuaTarget.lua51 _ (by decide) (by decide)⟩

/-- C2 counterexample: on Lua 5.1 (a target lacking hex escapes) the literal
backslash-x41-backslash-u0041 keeps its backslash-x41 token unchanged, because
the unsupported Unicode escape aborts the whole rewrite; the claim that every
hex token is rewritten to a decimal escape on such targets is false. -/
theorem c2_cex_hex_not_rewritten_on_abort :
    hexUnsupported LuaTarget.lua51 = true ∧
    (transformText LuaTarget.lua51 [92, 120, 52, 49, 92, 117, 48, 48, 52, 49]).1 =
      [92, 120, 52, 49, 92, 117, 48, 48, 52, 49] ∧
    (transformText LuaTarget.lua51 [92, 120, 52, 49, 92, 117, 48, 48, 52, 49]).1 ≠
      [92, 54, 53, 92, 117, 48, 48, 52, 49] := by
  decide

/-- C2 as amended: in a literal made of backslash-free runs and well-formed
escape tokens, provided no token triggers the unsupported-Unicode abort, a hex
escape token is left unchanged when the target supports hex escapes natively
and is rewritten to the decimal escape of the base-10 value of its two hex
digits (no padding) when the target lacks them, with all surrounding chunks
rewritten independently and in order. -/
theorem c2_hex_token_rewrite (t : LuaTarget) (pre post : List Chunk) (d1 d2 : Nat)
    (h1 : isHexDigitU d1 = true) (h2 : isHexDigitU d2 = true)
    (hok : ∀ c ∈ pre ++ post, chunkValid c ∧ chunkOk t c) :
    transformText t (renderChunks (pre ++ Chunk.hex d1 d2 :: post)) =
      (rewriteChunks t pre ++
        (if hexUnsupported t = true then
          92 :: decimalUnits (hexDigitVal d1 * 16 + hexDigitVal d2)
        else [92, 120, d1, d2]) ++ rewriteChunks t post, 0) := by
  have hall : ∀ c ∈ pre ++ Chunk.hex d1 d2 :: post, chunkValid c ∧ chunkOk t c := by
    intro c hc
    rcases List.mem_append.mp hc with hx | hx
    · exact hok c (List.mem_append_left post hx)
    · rcases List.mem_cons.mp hx with hx2 | hx2
      · subst hx2
        exact ⟨⟨h1, h2⟩, trivial⟩
      · exact hok c (List.mem_append_right pre hx2)
  rw [transformText_eq_spec, specScan_chunks t _ hall]
  have hsplit : rewriteChunks t (pre ++ Chunk.hex d1 d2 :: post) =
      rewriteChunks t pre ++ rewriteChunk t (Chunk.hex d1 d2) ++ rewriteChunks t post := by
    rw [show pre ++ Chunk.hex d1 d2 :: post = pre ++ [Chunk.hex d1 d2] ++ post by simp,
      rewriteChunks_append, rewriteChunks_append]
    simp [rewriteChunks]
  rw [hsplit]
  simp [rewriteChunk]

/-- C2 witness: the mixed literal a-backslash-x41-b on Lua 5.1 becomes a-backslash-65-b,
with the surrounding characters preserved exactly and in order. -/
theorem c2_hex_token_rewrite_witness :
    ((isHexDigitU 52 = true) ∧ (isHexDigitU 49 = true) ∧
      (∀ c ∈ [Chunk.plain [97]] ++ [Chunk.plain [98]],
        chunkValid c ∧ chunkOk LuaTarget.lua51 c)) ∧
    transformText LuaTarget.lua51
        (renderChunks ([Chunk.plain [97]] ++ Chunk.hex 52 49 :: [Chunk.plain [98]])) =
      (rewriteChunks LuaTarget.lua51 [Chunk.plain [97]] ++
        (if hexUnsupported LuaTarget.lua51 = true then
          92 :: decimalUnits (hexDigitVal 52 * 16 + hexDigitVal 49)
        else [92, 120, 52, 49]) ++ rewriteChunks LuaTarget.lua51 [Chunk.plain [98]], 0) :=
  ⟨⟨by decide, by decide, by decide⟩,
    c2_hex_token_rewrite LuaTarget.lua51 [Chunk.plain [97]] [Chunk.plain [98]] 52 49
      (by decide) (by decide) (by decide)⟩

/-- C3: against a target that supports Unicode escapes (Lua 5.3 and later),
every bare backslash-uHHHH token (four hex payload characters, not
brace-delimited) is rewritten to the braced form with the same four characters,
and every already-braced token is left character-for-character untouched, in
any context of well-formed chunks. -/
theorem c3_unicode_bare_braced_braced_untouched :
    (∀ (t : LuaTarget) (pre post : List Chunk) (a b c d : Nat),
      unicodeUnsupported t = false →
      isHexDigitU a = true → isHexDigitU b = true →
      isHexDigitU c = true → isHexDigitU d = true →
      (∀ ch ∈ pre ++ post, chunkValid ch ∧ chunkOk t ch) →
      transformText t (renderChunks (pre ++ Chunk.uniBare a b c d :: post)) =
        (rewriteChunks t pre ++ [92, 117, 123, a, b, c, d, 125] ++ rewriteChunks t post, 0)) ∧
    (∀ (t : LuaTarget) (pre post : List Chunk) (s : List Nat),
      unicodeUnsupported t = false →
      (∀ u ∈ s, isHexDigitU u = true) →
      (∀ ch ∈ pre ++ post, chunkValid ch ∧ chunkOk t ch) →
      transformText t (renderChunks (pre ++ Chunk.uniBraced s :: post)) =
        (rewriteChunks t pre ++ (92 :: 117 :: 123 :: (s ++ [125])) ++ rewriteChunks t post, 0)) := by
  constructor
  · intro t pre post a b c d ht h1 h2 h3 h4 hok
    have hall : ∀ ch ∈ pre ++ Chunk.uniBare a b c d :: post, chunkValid ch ∧ chunkOk t ch := by
      intro ch hc
      rcases List.mem_append.mp hc with hx | hx
      · exact hok ch (List.mem_append_left post hx)
      · rcases List.mem_cons.mp hx with hx2 | hx2
        · subst hx2
          exact ⟨⟨h1, h2, h3, h4⟩, ht⟩
        · exact hok ch (List.mem_append_right pre hx2)
    rw [transformText_eq_spec, specScan_chunks t _ hall]
    have hsplit : rewriteChunks t (pre ++ Chunk.uniBare a b c d :: post) =
        rewriteChunks t pre ++ rewriteChunk t (Chunk.uniBare a b c d) ++ rewriteChunks t post := by
      rw [show pre ++ Chunk.uniBare a b c d :: post = pre ++ [Chunk.uniBare a b c d] ++ post
          by simp, rewriteChunks_append, rewriteChunks_append]
      simp [rewriteChunks]
    rw [hsplit]
    simp [rewriteChunk]
  · intro t pre post s ht hs hok
    have hall : ∀ ch ∈ pre ++ Chunk.uniBraced s :: post, chunkValid ch ∧ chunkOk t ch := by
      intro ch hc
      rcases List.mem_append.mp hc with hx | hx
      · exact hok ch (List.mem_append_left post hx)
      · rcases List.mem_cons.mp hx with hx2 | hx2
        · subst hx2
          exact ⟨hs, ht⟩
        · exact hok ch (List.mem_append_right pre hx2)
    rw [transformText_eq_spec, specScan_chunks t _ hall]
    have hsplit : rewriteChunks t (pre ++ Chunk.uniBraced s :: post) =
        rewriteChunks t pre ++ rewriteChunk t (Chunk.uniBraced s) ++ rewriteChunks t post := by
      rw [show pre ++ Chunk.uniBraced s :: post = pre ++ [Chunk.uniBraced s] ++ post by simp,
        rewriteChunks_append, rewriteChunks_append]
      simp [rewriteChunks]
    rw [hsplit]
    simp [rewriteChunk]

/-- C3 witness: on Lua 5.3 the lone token backslash-u0041 becomes its braced form,
and the already-braced backslash-u-brace-41-brace is left untouched. -/
theorem c3_unicode_bare_braced_braced_untouched_witness :
    (unicodeUnsupported LuaTarget.lua53 = false ∧
      transformText LuaTarget.lua53 (renderChunks ([] ++ Chunk.uniBare 48 48 52 49 :: [])) =
        (rewriteChunks LuaTarget.lua53 [] ++ [92, 117, 123, 48, 48, 52, 49, 125] ++
          rewriteChunks LuaTarget.lua53 [], 0)) ∧
    (transformText LuaTarget.lua53 (renderChunks ([] ++ Chunk.uniBraced [52, 49] :: [])) =
      (rewriteChunks LuaTarget.lua53 [] ++ (92 :: 117 :: 123 :: ([52, 49] ++ [125])) ++
        rewriteChunks LuaTarget.lua53 [], 0)) :=
  ⟨⟨by decide,
    c3_unicode_bare_braced_braced_untouched.1 LuaTarget.lua53 [] [] 48 48 52 49
      (by decide) (by decide) (by decide) (by decide) (by decide) (by decide)⟩,
    c3_unicode_bare_braced_braced_untouched.2 LuaTarget.lua53 [] [] [52, 49]
      (by decide) (by decide) (by decide)⟩

/-- C7 counterexample: the rewrite is not idempotent on arbitrary text. On
Lua 5.3 the literal backslash-u-backslash-u0041 rewrites to a braced token
whose payload itself contains a bare Unicode escape, and a second rewrite
changes the text again. -/
theorem c7_cex_not_idempotent :
    (transformText LuaTarget.lua53
        ((transformText LuaTarget.lua53 [92, 117, 92, 117, 48, 48, 52, 49]).1)).1 ≠
      (transformText LuaTarget.lua53 [92, 117, 92, 117, 48, 48, 52, 49]).1 := by
  decide

/-- C7 as amended: the rewrite is idempotent on every literal that decomposes
into backslash-free runs and well-formed escape tokens (for any target; when
the scan aborts the literal passes through unchanged, and a second pass aborts
identically). -/
theorem c7_idempotent_on_wellformed (t : LuaTarget) (cs : List Chunk)
    (hv : ∀ c ∈ cs, chunkValid c) :
    (transformText t ((transformText t (renderChunks cs)).1)).1 =
      (transformText t (renderChunks cs)).1 := by
  by_cases habort : unicodeUnsupported t = true ∧ ∃ c ∈ cs, isUniChunk c
  · obtain ⟨ht, hex⟩ := habort
    have h1 : specScan t (renderChunks cs) = none := specScan_chunks_abort t cs hv hex ht
    have e1 : (transformText t (renderChunks cs)).1 = renderChunks cs := by
      rw [transformText_eq_spec, h1]
    rw [e1]
    exact e1
  · have hok : ∀ c ∈ cs, chunkValid c ∧ chunkOk t c := by
      intro c hc
      refine ⟨hv c hc, ?_⟩
      cases c with
      | plain s => trivial
      | hex d1 d2 => trivial
      | esc cc => trivial
      | uniBare a b c2 d =>
        cases hT : unicodeUnsupported t with
        | false => exact hT
        | true => exact absurd ⟨hT, Chunk.uniBare a b c2 d, hc, trivial⟩ habort
      | uniBraced s =>
        cases hT : unicodeUnsupported t with
        | false => exact hT
        | true => exact absurd ⟨hT, Chunk.uniBraced s, hc, trivial⟩ habort
    have h1 : specScan t (renderChunks cs) = some (rewriteChunks t cs) :=
      specScan_chunks t cs hok
    have e1 : (transformText t (renderChunks cs)).1 = rewriteChunks t cs := by
      rw [transformText_eq_spec, h1]
    have h2 : specScan t (rewriteChunks t cs) = some (rewriteChunks t cs) :=
      specScan_rewrite_fixpoint t cs hok
    have e2 : (transformText t (rewriteChunks t cs)).1 = rewriteChunks t cs := by
      rw [transformText_eq_spec, h2]
    rw [e1, e2]

/-- C7 witness: a literal with a hex token, a bare Unicode token and plain runs
on Lua 5.1 (which aborts) and the rewrite applied twice on it agrees with one
pass; hypothesis checked on a concrete chunk list. -/
theorem c7_idempotent_on_wellformed_witness :
    (∀ c ∈ [Chunk.plain [97], Chunk.hex 52 49, Chunk.uniBare 48 48 52 49, Chunk.plain [98]],
      chunkValid c) ∧
    (transformText LuaTarget.lua51
        ((transformText LuaTarget.lua51
          (renderChunks
            [Chunk.plain [97], Chunk.hex 52 49, Chunk.uniBare 48 48 52 49,
              Chunk.plain [98]])).1)).1 =
      (transformText LuaTarget.lua51
        (renderChunks
          [Chunk.plain [97], Chunk.hex 52 49, Chunk.uniBare 48 48 52 49,
            Chunk.plain [98]])).1 :=
  ⟨by decide,
    c7_idempotent_on_wellformed LuaTarget.lua51
      [Chunk.plain [97], Chunk.hex 52 49, Chunk.uniBare 48 48 52 49, Chunk.plain [98]]
      (by decide)⟩

/-- C8 counterexample: a literal whose text ends in a truncated hex escape is
not passed through. On Lua 5.1 the template text backslash-x4 is rewritten to
the decimal escape backslash-4 built from the single-digit payload, with no
diagnostic. -/
theorem c8_cex_truncated_payload_rewritten :
    transformText LuaTarget.lua51 [92, 120, 52] = ([92, 52], 0) ∧
    [92, 52] ≠ [92, 120, 52] := by
  decide

/-- C8 as amended: on a truncated escape payload at the end of the text the
scanner does not degrade to pass-through; the clamped slice (no out-of-bounds
access) supplies whatever payload characters exist, and a rewritten token is
emitted from the incomplete payload: a final backslash-xH becomes the decimal
escape of the one hex digit on hex-rewriting targets, and a final backslash-u00
becomes the braced token with the two-character payload on Unicode-supporting
targets. -/
theorem c8_truncated_payload_behaviour :
    (∀ (t : LuaTarget) (d : Nat), hexUnsupported t = true → isHexDigitU d = true →
      transformText t [92, 120, d] = (92 :: decimalUnits (hexDigitVal d), 0)) ∧
    (∀ t : LuaTarget, unicodeUnsupported t = false →
      transformText t [92, 117, 48, 48] = ([92, 117, 123, 48, 48, 125], 0)) := by
  constructor
  · intro t d ht hd
    rw [transformText_eq_spec, specScan_bs_x_unsup t [d] ht]
    simp [specScan_nil, hexEscToken_single hd]
  · intro t ht
    rw [transformText_eq_spec, specScan_bs_u_rewrite t [48, 48] ht (by decide)]
    simp [specScan_nil]

/-- C8 witness: the truncated backslash-x4 on Lua 5.1 and the truncated
backslash-u00 on Lua 5.3, each rewritten from the incomplete payload. -/
theorem c8_truncated_payload_behaviour_witness :
    (hexUnsupported LuaTarget.lua51 = true ∧ isHexDigitU 52 = true ∧
      transformText LuaTarget.lua51 [92, 120, 52] = (92 :: decimalUnits (hexDigitVal 52), 0)) ∧
    (unicodeUnsupported LuaTarget.lua53 = false ∧
      transformText LuaTarget.lua53 [92, 117, 48, 48] = ([92, 117, 123, 48, 48, 125], 0)) :=
  ⟨⟨by decide, by decide,
      c8_truncated_payload_behaviour.1 LuaTarget.lua51 52 (by decide) (by decide)⟩,
    ⟨by decide, c8_truncated_payload_behaviour.2 LuaTarget.lua53 (by decide)⟩⟩

/-- C9: the result of transformEscapeSequences depends only on the node and the
target, not on any earlier calls: the cached transformer's closure state is
reset before scanning, so every invocation computes the pure function of the
node text, its positions and the target; repeating a call with any other calls
interleaved returns identical text. -/
theorem c9_result_depends_only_on_node_and_target (ps : ProcState) (target : LuaTarget)
    (node : StringNode) :
    (transformEscapeSequences ps target node).1 = pureTransform target node := by
  unfold transformEscapeSequences transformerCall pureTransform rewriteCore
  by_cases hpos : node.pos = -1
  · simp [hpos]
  · rcases hspan : nodeSpan node with ⟨text, textStart, textEnd⟩
    simp only [hpos, if_false, hspan]
    by_cases hlen : text.length = 0
    · simp [hlen]
    · simp [hlen]

/-- C4 counterexample: an unpaired low-surrogate code unit is a code point above
0xFF, yet the encoder deletes it instead of replacing it with the byte-escape
tokens of its UTF-8 encoding, as the claim as stated demands. -/
theorem c4_cex_low_surrogate_not_encoded :
    encodeUTF8 [0xDC00] = [] ∧
    specEncodeNaive [0xDC00] = escTokens (utf8Bytes 0xDC00) ∧
    encodeUTF8 [0xDC00] ≠ specEncodeNaive [0xDC00] := by
  decide

/-- C4 as amended: for every valid UTF-16 input, the encoder replaces every
decoded code point above 0xFF with the decimal byte-escape tokens of its UTF-8
encoding (2-byte form below 0x800, 3-byte form below 0x10000, 4-byte form
otherwise, with continuation bytes), except unpaired low-surrogate code units,
which are deleted; every code point up to 0xFF stays as the original
character, and non-matched runs are copied verbatim. -/
theorem c4_encode_matches_contract (s : List Nat) (h : ∀ u ∈ s, u < 0x10000) :
    encodeUTF8 s = specEncode s := by
  rw [encodeUTF8_eq_spec]
  exact encodeSpec_eq_specEncode s h

/-- C4 witness: a string mixing ASCII, a Latin-1 unit, a two-byte code point
and a surrogate pair. -/
theorem c4_encode_matches_contract_witness :
    (∀ u ∈ [97, 0xE9, 0x119, 0xD83D, 0xDE00], u < 0x10000) ∧
    encodeUTF8 [97, 0xE9, 0x119, 0xD83D, 0xDE00] =
      specEncode [97, 0xE9, 0x119, 0xD83D, 0xDE00] :=
  ⟨by decide, c4_encode_matches_contract [97, 0xE9, 0x119, 0xD83D, 0xDE00] (by decide)⟩

/-- C5 counterexample: encoding the code point 0x00E9 yields the character
unchanged (0xE9 is not above the 0xFF threshold), not the two-byte escape
sequence backslash-195-backslash-169 the claim states. -/
theorem c5_cex_e9_unchanged :
    encodeUTF8 [0xE9] = [0xE9] ∧
    encodeUTF8 [0xE9] ≠ [92, 49, 57, 53, 92, 49, 54, 57] := by
  decide

/-- C5 as amended: encoding 0x00E9 returns it unchanged, because only code
points above 0xFF are byte-encoded (a code point above the threshold, such as
0x0119, yields its two-byte escape sequence backslash-196-backslash-153), and
encoding an ASCII-only string returns it unchanged. -/
theorem c5_e9_below_threshold :
    encodeUTF8 [0xE9] = [0xE9] ∧
    encodeUTF8 [0x119] = [92, 49, 57, 54, 92, 49, 53, 51] ∧
    ∀ s : List Nat, (∀ u ∈ s, u < 128) → encodeUTF8 s = s :=
  ⟨by decide, by decide, fun s hs => by
    rw [encodeUTF8_eq_spec]
    exact encodeSpec_all_le s (fun u hu => by have := hs u hu; omega)⟩

/-- C5 witness: the ASCII-only clause applied to a concrete string. -/
theorem c5_e9_below_threshold_witness :
    (∀ u ∈ [104, 105, 33], u < 128) ∧ encodeUTF8 [104, 105, 33] = [104, 105, 33] :=
  ⟨by decide, c5_e9_below_threshold.2.2 [104, 105, 33] (by decide)⟩

/-- C6: a high surrogate immediately followed by a low surrogate is consumed as
one code point: the encoder emits exactly one escape sequence, the 4-byte UTF-8
form of the combined code point, never two sequences for the two halves; the
low half is skipped and not re-emitted. -/
theorem c6_surrogate_pair_one_sequence (pre suf : List Nat) (hi lo : Nat)
    (h1 : 0xD800 ≤ hi) (h2 : hi ≤ 0xDBFF) (h3 : 0xDC00 ≤ lo) (h4 : lo ≤ 0xDFFF) :
    encodeUTF8 (pre ++ hi :: lo :: suf) =
      encodeUTF8 pre ++ escTokens (utf8Bytes (combineSurrogates hi lo)) ++ encodeUTF8 suf ∧
    (utf8Bytes (combineSurrogates hi lo)).length = 4 := by
  have hcomb : 0x10000 ≤ combineSurrogates hi lo := by
    unfold combineSurrogates
    omega
  have hcomb4 : combineSurrogates hi lo < 0x400000 := by
    unfold combineSurrogates
    omega
  constructor
  · rw [encodeUTF8_eq_spec, encodeUTF8_eq_spec, encodeUTF8_eq_spec]
    rw [encodeSpec_append pre (hi :: lo :: suf) ?hhead]
    case hhead =>
      intro v hv
      simp at hv
      omega
    rw [encodeSpec_pair suf ⟨h1, h2⟩ ⟨h3, h4⟩, encodeCodePoint_eq_escTokens _ hcomb4]
    simp [List.append_assoc]
  · unfold utf8Bytes
    rw [if_neg (by omega), if_neg (by omega)]
    rfl

/-- C6 witness: an emoji surrogate pair between ASCII characters becomes one
4-byte escape sequence. -/
theorem c6_surrogate_pair_one_sequence_witness :
    (0xD800 ≤ 0xD83D ∧ 0xD83D ≤ 0xDBFF ∧ 0xDC00 ≤ 0xDE00 ∧ 0xDE00 ≤ 0xDFFF) ∧
    (encodeUTF8 ([97] ++ 0xD83D :: 0xDE00 :: [98]) =
      encodeUTF8 [97] ++ escTokens (utf8Bytes (combineSurrogates 0xD83D 0xDE00)) ++
        encodeUTF8 [98] ∧
    (utf8Bytes (combineSurrogates 0xD83D 0xDE00)).length = 4) :=
  ⟨⟨by decide, by decide, by decide, by decide⟩,
    c6_surrogate_pair_one_sequence [97] [98] 0xD83D 0xDE00
      (by decide) (by decide) (by decide) (by decide)⟩

/-- C10 counterexample: deleting the unpaired low surrogate makes the output
equal to the output for the otherwise-identical input without it, not strictly
shorter than it. -/
theorem c10_cex_not_strictly_shorter :
    encodeUTF8 [97, 0xDC00] = [97] ∧
    encodeUTF8 [97] = [97] ∧
    ¬((encodeUTF8 [97, 0xDC00]).length < (encodeUTF8 [97]).length) ∧
    ¬((encodeUTF8 [97, 0xDC00]).length < ([97] : List Nat).length) := by
  decide

/-- C10 as amended: an unpaired low-surrogate code unit (one not preceded by a
high surrogate) is silently deleted: it is neither copied verbatim nor encoded
as byte-escape tokens, and the output equals the output for the otherwise-
identical input without it. -/
theorem c10_unpaired_low_surrogate_deleted (pre suf : List Nat) (ls : Nat)
    (h1 : 0xDC00 ≤ ls) (h2 : ls ≤ 0xDFFF)
    (hpre : ∀ u, pre.getLast? = some u → ¬(0xD800 ≤ u ∧ u ≤ 0xDBFF)) :
    encodeUTF8 (pre ++ ls :: suf) = encodeUTF8 (pre ++ suf) := by
  rw [encodeUTF8_eq_spec, encodeUTF8_eq_spec]
  exact encodeSpec_delete_low ⟨h1, h2⟩ pre suf hpre

/-- C10 witness: deleting 0xDC00 between two ASCII characters. -/
theorem c10_unpaired_low_surrogate_deleted_witness :
    (0xDC00 ≤ 0xDC00 ∧ 0xDC00 ≤ 0xDFFF ∧
      (∀ u, ([97] : List Nat).getLast? = some u → ¬(0xD800 ≤ u ∧ u ≤ 0xDBFF))) ∧
    encodeUTF8 ([97] ++ 0xDC00 :: [98]) = encodeUTF8 ([97] ++ [98]) :=
  ⟨⟨by decide, by decide, by decide⟩,
    c10_unpaired_low_surrogate_deleted [97] [98] 0xDC00 (by decide) (by decide) (by decide)⟩
